import Mathlib

/-!
Verification development for the TrackManage track-management service.

The definitions below are a shallow embedding of the C++ sources:

* `LatestKBuffer`   — src/src/LatestKBuffer.hpp (fixed-capacity ring buffer);
* `TrackerManager`  — src/src/trackManager.cpp / trackManager.hpp (track store);
* the command scheduler — src/src/ManagementService.cpp;
* the datagram transport — src/src/TrackerComm.cpp / TrackerComm.hpp;
* the configuration loader — src/include/TrackConfig.hpp.

C++ `std::vector`s become Lean `List`s, `size_t`/`uint32_t` counters become
`Nat` (no relevant overflow: ids and sizes stay far below `2^32` in every
statement proved here, and the single subtraction `std::max(0, e - 1)` is
modelled by truncated `Nat` subtraction which agrees with it on
non-negative values), the `unordered_map` becomes an association list
(only `find`, `erase`, `operator[]` insertion and entry update are used by
the code, none of which depend on hash order), and member functions become
functions threading the state explicitly.
-/

namespace TrackSpec

/-! ## LatestKBuffer (src/src/LatestKBuffer.hpp)

The backing `std::unique_ptr<T[]>` array of length `capacity_` is modelled
as a `List T` of that length; `buffer_[i] = x` is `List.set`, reading
`buffer_[i]` is `List.getD` (all indices used by the code are in range
whenever `capacity_ > 0`, which the constructor asserts). -/

structure LatestKBuffer (T : Type) where
  buffer : List T
  capacity : Nat
  head : Nat
  tail : Nat
  size : Nat
  full : Bool
deriving Repr, DecidableEq

/-- Constructor `LatestKBuffer(capacity)`: zero-initialised indices, a fresh
backing array of `capacity` default elements. -/
def LatestKBuffer.init (T : Type) [Inhabited T] (capacity : Nat) : LatestKBuffer T :=
  { buffer := List.replicate capacity default
    capacity := capacity
    head := 0
    tail := 0
    size := 0
    full := false }

/-- Models `clear()`: reset indices, keep the allocation. -/
def LatestKBuffer.clear {T : Type} (b : LatestKBuffer T) : LatestKBuffer T :=
  { b with head := 0, tail := 0, size := 0, full := false }

/-- Models `_advance_head()` from LatestKBuffer.hpp: on a full buffer the tail
advances (oldest element dropped), otherwise the size grows; the head always
advances; fullness is re-derived from `head_ == tail_`. -/
def LatestKBuffer.advanceHead {T : Type} (b : LatestKBuffer T) : LatestKBuffer T :=
  let tail' := if b.full then (b.tail + 1) % b.capacity else b.tail
  let size' := if b.full then b.size else b.size + 1
  let head' := (b.head + 1) % b.capacity
  { b with tail := tail', size := size', head := head', full := decide (head' = tail') }

/-- Models `push(item)`: write at `head_`, then `_advance_head()`. -/
def LatestKBuffer.push {T : Type} (b : LatestKBuffer T) (x : T) : LatestKBuffer T :=
  LatestKBuffer.advanceHead { b with buffer := b.buffer.set b.head x }

/-- Models `operator[](index)` (read): `buffer_[(tail_ + index) % capacity_]`. -/
def LatestKBuffer.get {T : Type} [Inhabited T] (b : LatestKBuffer T) (i : Nat) : T :=
  b.buffer.getD ((b.tail + i) % b.capacity) default

/-- Models `operator[](index)` used as an lvalue (the write in `merge_tracks`):
`buffer_[(tail_ + index) % capacity_] = x`. -/
def LatestKBuffer.setAt {T : Type} (b : LatestKBuffer T) (i : Nat) (x : T) : LatestKBuffer T :=
  { b with buffer := b.buffer.set ((b.tail + i) % b.capacity) x }

/-- The retained elements in logical order, index `0` the oldest. -/
def LatestKBuffer.toList {T : Type} [Inhabited T] (b : LatestKBuffer T) : List T :=
  (List.range b.size).map b.get

/-- Push a whole list, oldest first. -/
def LatestKBuffer.pushAll {T : Type} (b : LatestKBuffer T) (xs : List T) : LatestKBuffer T :=
  xs.foldl LatestKBuffer.push b

/-- Well-formedness of a ring-buffer state: the backing array has length
`capacity`, the capacity is positive (asserted by the constructor), the head
sits `size` places after the tail modulo `capacity`, and `full` agrees with
`size = capacity`. Every state reachable from `init` satisfies it. -/
def LatestKBuffer.Inv {T : Type} (b : LatestKBuffer T) : Prop :=
  b.buffer.length = b.capacity ∧ 0 < b.capacity ∧ b.size ≤ b.capacity ∧
  b.tail < b.capacity ∧ b.head = (b.tail + b.size) % b.capacity ∧
  b.full = decide (b.size = b.capacity)

/-- The last `k` elements of a list. -/
def takeLast {T : Type} (k : Nat) (l : List T) : List T :=
  l.drop (l.length - k)

theorem takeLast_of_le {T : Type} (k : Nat) (l : List T) (h : l.length ≤ k) :
    takeLast k l = l := by
  simp [takeLast, Nat.sub_eq_zero_of_le h]

theorem takeLast_cons_of_le {T : Type} (k : Nat) (a : T) (l : List T) (h : k ≤ l.length) :
    takeLast k (a :: l) = takeLast k l := by
  simp only [takeLast, List.length_cons]
  rw [show l.length + 1 - k = (l.length - k) + 1 by omega]
  simp

theorem length_takeLast {T : Type} (k : Nat) (l : List T) :
    (takeLast k l).length = min k l.length := by
  simp [takeLast]; omega

theorem LatestKBuffer.Inv.init {T : Type} [Inhabited T] (k : Nat) (hk : 0 < k) :
    (LatestKBuffer.init T k).Inv := by
  refine ⟨by simp [LatestKBuffer.init], hk, by simp [LatestKBuffer.init], hk, ?_, ?_⟩ <;>
    simp [LatestKBuffer.init, Nat.mod_eq_of_lt hk]
  omega

/-- Arithmetic fact used to relate `head_ == tail_` with `size = capacity`. -/
theorem mod_add_cancel_iff (k t s : Nat) (ht : t < k) (hs : s ≤ k) :
    (t + s) % k = t ↔ (s = 0 ∨ s = k) := by
  constructor
  · intro h
    rcases Nat.lt_or_ge (t + s) k with hlt | hge
    · rw [Nat.mod_eq_of_lt hlt] at h; omega
    · have h2 : (t + s) % k = (t + s - k) % k := Nat.mod_eq_sub_mod hge
      have h3 : t + s - k < k := by omega
      rw [h2, Nat.mod_eq_of_lt h3] at h; omega
  · rintro (rfl | rfl)
    · simpa using Nat.mod_eq_of_lt ht
    · simp [Nat.add_mod_right, Nat.mod_eq_of_lt ht]

/-- Models `push` on a not-full buffer, with the `advanceHead` branches resolved. -/
theorem LatestKBuffer.push_eq_of_not_full {T : Type} {b : LatestKBuffer T} (x : T)
    (hfb : b.full = false) :
    b.push x =
      { b with buffer := b.buffer.set b.head x, size := b.size + 1,
               head := (b.head + 1) % b.capacity,
               full := decide ((b.head + 1) % b.capacity = b.tail) } := by
  simp [LatestKBuffer.push, LatestKBuffer.advanceHead, hfb]

/-- Models `push` on a full buffer, with the `advanceHead` branches resolved. -/
theorem LatestKBuffer.push_eq_of_full {T : Type} {b : LatestKBuffer T} (x : T)
    (hfb : b.full = true) :
    b.push x =
      { b with buffer := b.buffer.set b.head x, tail := (b.tail + 1) % b.capacity,
               head := (b.head + 1) % b.capacity,
               full := decide ((b.head + 1) % b.capacity = (b.tail + 1) % b.capacity) } := by
  simp [LatestKBuffer.push, LatestKBuffer.advanceHead, hfb]

theorem LatestKBuffer.head_eq_tail_of_full {T : Type} {b : LatestKBuffer T} (hb : b.Inv)
    (hfull : b.size = b.capacity) : b.head = b.tail := by
  obtain ⟨hlen, hk, hsz, ht, hh, hf⟩ := hb
  rw [hh, hfull, Nat.add_mod_right, Nat.mod_eq_of_lt ht]

theorem LatestKBuffer.Inv.push {T : Type} {b : LatestKBuffer T} (hb : b.Inv) (x : T) :
    (b.push x).Inv := by
  obtain ⟨hlen, hk, hsz, ht, hh, hf⟩ := hb
  by_cases hfull : b.size = b.capacity
  · have hfb : b.full = true := by rw [hf]; simp [hfull]
    have hhead : b.head = b.tail :=
      LatestKBuffer.head_eq_tail_of_full ⟨hlen, hk, hsz, ht, hh, hf⟩ hfull
    rw [LatestKBuffer.push_eq_of_full x hfb]
    refine ⟨by simp [hlen], hk, hsz, Nat.mod_lt _ hk, ?_, ?_⟩
    · show (b.head + 1) % b.capacity = ((b.tail + 1) % b.capacity + b.size) % b.capacity
      rw [hhead, hfull, Nat.mod_add_mod, Nat.add_mod_right]
    · show decide ((b.head + 1) % b.capacity = (b.tail + 1) % b.capacity) =
        decide (b.size = b.capacity)
      rw [hhead]
      simp [hfull]
  · have hfb : b.full = false := by rw [hf]; simp [hfull]
    have hslt : b.size < b.capacity := lt_of_le_of_ne hsz hfull
    rw [LatestKBuffer.push_eq_of_not_full x hfb]
    refine ⟨by simp [hlen], hk, by show b.size + 1 ≤ b.capacity; omega, ht, ?_, ?_⟩
    · show (b.head + 1) % b.capacity = (b.tail + (b.size + 1)) % b.capacity
      rw [hh, Nat.mod_add_mod, Nat.add_assoc]
    · show decide ((b.head + 1) % b.capacity = b.tail) = decide (b.size + 1 = b.capacity)
      have hlhs : (b.head + 1) % b.capacity = (b.tail + (b.size + 1)) % b.capacity := by
        rw [hh, Nat.mod_add_mod, Nat.add_assoc]
      rw [hlhs, decide_eq_decide]
      rw [mod_add_cancel_iff b.capacity b.tail (b.size + 1) ht (by omega)]
      omega

theorem getD_set_ne {α : Type} (l : List α) {j i : Nat} (a d : α) (h : j ≠ i) :
    (l.set j a).getD i d = l.getD i d := by
  simp [List.getD_eq_getElem?_getD, List.getElem?_set_ne h]

theorem getD_set_self {α : Type} (l : List α) {i : Nat} (a d : α) (h : i < l.length) :
    (l.set i a).getD i d = a := by
  simp [List.getD_eq_getElem?_getD, List.getElem?_set_eq_of_lt a h]

theorem mod_add_ne (k t : Nat) {i j : Nat} (hi : i < k) (hj : j < k) (hij : i ≠ j) :
    (t + i) % k ≠ (t + j) % k := by
  intro h
  have hme : i ≡ j [MOD k] := Nat.ModEq.add_left_cancel' t h
  rw [Nat.ModEq, Nat.mod_eq_of_lt hi, Nat.mod_eq_of_lt hj] at hme
  exact hij hme

/-- The observable content of `push`: pushing into a not-full buffer appends,
pushing into a full buffer drops the oldest element and appends. -/
theorem LatestKBuffer.toList_push {T : Type} [Inhabited T] {b : LatestKBuffer T}
    (hb : b.Inv) (x : T) :
    (b.push x).toList =
      if b.size < b.capacity then b.toList ++ [x] else b.toList.drop 1 ++ [x] := by
  obtain ⟨hlen, hk, hsz, ht, hh, hf⟩ := hb
  by_cases hfull : b.size = b.capacity
  · have hfb : b.full = true := by rw [hf]; simp [hfull]
    have hhead : b.head = b.tail :=
      LatestKBuffer.head_eq_tail_of_full ⟨hlen, hk, hsz, ht, hh, hf⟩ hfull
    obtain ⟨m, hm⟩ : ∃ m, b.capacity = m + 1 := ⟨b.capacity - 1, by omega⟩
    rw [LatestKBuffer.push_eq_of_full x hfb]
    have hneg : ¬ b.size < b.capacity := by omega
    simp only [hneg, if_false]
    have hdrop : ((List.range b.size).map b.get).drop 1 =
        (List.range m).map (fun i => b.get (i + 1)) := by
      rw [hfull, hm, List.range_succ_eq_map, List.map_cons, List.drop_one, List.tail_cons,
        List.map_map]
      rfl
    show (List.range b.size).map
        (fun i => (b.buffer.set b.head x).getD (((b.tail + 1) % b.capacity + i) % b.capacity)
          default) =
      ((List.range b.size).map b.get).drop 1 ++ [x]
    rw [hdrop, hhead, hfull, hm]
    rw [List.range_succ, List.map_append, List.map_cons, List.map_nil]
    congr 1
    · apply List.map_congr_left
      intro i hi
      have him : i < m := List.mem_range.mp hi
      have hidx : ((b.tail + 1) % (m + 1) + i) % (m + 1) = (b.tail + (1 + i)) % (m + 1) := by
        rw [Nat.mod_add_mod, Nat.add_assoc]
      show (b.buffer.set b.tail x).getD (((b.tail + 1) % (m + 1) + i) % (m + 1)) default =
        b.get (i + 1)
      rw [hidx, LatestKBuffer.get, hm]
      have hne : (b.tail + (1 + i)) % (m + 1) ≠ b.tail := by
        intro h
        rw [mod_add_cancel_iff (m + 1) b.tail (1 + i) (by omega) (by omega)] at h
        omega
      rw [getD_set_ne _ _ _ (fun h => hne h.symm)]
      have h1i : b.tail + (1 + i) = b.tail + (i + 1) := by omega
      rw [h1i]
    · have hidx : ((b.tail + 1) % (m + 1) + m) % (m + 1) = b.tail := by
        rw [Nat.mod_add_mod]
        have : b.tail + 1 + m = b.tail + (m + 1) := by omega
        rw [this, Nat.add_mod_right, Nat.mod_eq_of_lt (by omega)]
      show [(b.buffer.set b.tail x).getD (((b.tail + 1) % (m + 1) + m) % (m + 1)) default] = [x]
      rw [hidx, getD_set_self _ _ _ (by rw [hlen]; omega)]
  · have hfb : b.full = false := by rw [hf]; simp [hfull]
    have hslt : b.size < b.capacity := lt_of_le_of_ne hsz hfull
    rw [LatestKBuffer.push_eq_of_not_full x hfb]
    simp only [hslt, if_true]
    show (List.range (b.size + 1)).map
        (fun i => (b.buffer.set b.head x).getD ((b.tail + i) % b.capacity) default) =
      (List.range b.size).map b.get ++ [x]
    rw [List.range_succ, List.map_append, List.map_cons, List.map_nil]
    congr 1
    · apply List.map_congr_left
      intro i hi
      have his : i < b.size := List.mem_range.mp hi
      have hne : b.head ≠ (b.tail + i) % b.capacity := by
        rw [hh]
        exact fun h => mod_add_ne b.capacity b.tail hslt (by omega) (by omega) h
      rw [LatestKBuffer.get, getD_set_ne _ _ _ hne]
    · have hidx : (b.tail + b.size) % b.capacity = b.head := hh.symm
      have hhb : b.head < b.buffer.length := by
        rw [hlen, hh]
        exact Nat.mod_lt _ hk
      rw [hidx, getD_set_self _ _ _ hhb]

theorem LatestKBuffer.Inv.pushAll {T : Type} {b : LatestKBuffer T} (hb : b.Inv)
    (xs : List T) : (b.pushAll xs).Inv := by
  induction xs generalizing b with
  | nil => exact hb
  | cons x xs ih => exact ih (hb.push x)

theorem LatestKBuffer.length_toList {T : Type} [Inhabited T] (b : LatestKBuffer T) :
    b.toList.length = b.size := by
  simp [LatestKBuffer.toList]

/-- Master characterisation: after pushing `xs`, the buffer retains exactly the
last `capacity` elements of `toList b ++ xs`, in push order. -/
theorem LatestKBuffer.toList_pushAll {T : Type} [Inhabited T] {b : LatestKBuffer T}
    (hb : b.Inv) (xs : List T) :
    (b.pushAll xs).toList = takeLast b.capacity (b.toList ++ xs) := by
  induction xs generalizing b with
  | nil =>
    rw [List.append_nil, takeLast_of_le]
    · rfl
    · rw [LatestKBuffer.length_toList]; exact hb.2.2.1
  | cons x xs ih =>
    have hstep : (b.pushAll (x :: xs)) = (b.push x).pushAll xs := rfl
    rw [hstep, ih (hb.push x)]
    have hcap : (b.push x).capacity = b.capacity := by
      by_cases hfull : b.full = true
      · rw [LatestKBuffer.push_eq_of_full x hfull]
      · rw [LatestKBuffer.push_eq_of_not_full x (by revert hfull; cases b.full <;> simp)]
    rw [hcap, LatestKBuffer.toList_push hb x]
    by_cases hslt : b.size < b.capacity
    · simp only [hslt, if_true]
      rw [List.append_assoc, List.singleton_append]
    · simp only [hslt, if_false]
      have hsize : b.size = b.capacity := by
        have := hb.2.2.1
        omega
      have hlenl : b.toList.length = b.capacity := by
        rw [LatestKBuffer.length_toList, hsize]
      obtain ⟨a, l, hal⟩ : ∃ a l, b.toList = a :: l := by
        cases hl : b.toList with
        | nil => rw [hl] at hlenl; simp at hlenl; have := hb.2.1; omega
        | cons a l => exact ⟨a, l, rfl⟩
      rw [hal, List.drop_one, List.tail_cons, List.cons_append, takeLast_cons_of_le]
      · rw [List.append_assoc, List.singleton_append]
      · have hll : l.length + 1 = b.capacity := by
          have := hlenl
          rw [hal] at this
          simpa using this
        rw [List.length_append, List.length_cons]
        omega

theorem LatestKBuffer.toList_getD {T : Type} [Inhabited T] (b : LatestKBuffer T) (i : Nat)
    (h : i < b.size) : b.toList.getD i default = b.get i := by
  simp [LatestKBuffer.toList, List.getD_eq_getElem?_getD, List.getElem?_map,
    List.getElem?_range h]

theorem LatestKBuffer.toList_init (T : Type) [Inhabited T] (k : Nat) :
    (LatestKBuffer.init T k).toList = [] := rfl

theorem LatestKBuffer.capacity_init (T : Type) [Inhabited T] (k : Nat) :
    (LatestKBuffer.init T k).capacity = k := rfl

theorem LatestKBuffer.size_eq_min {T : Type} [Inhabited T] (k : Nat) (hk : 0 < k)
    (xs : List T) :
    ((LatestKBuffer.init T k).pushAll xs).size = min k xs.length := by
  have h1 := LatestKBuffer.toList_pushAll (LatestKBuffer.Inv.init (T := T) k hk) xs
  have h2 := LatestKBuffer.length_toList ((LatestKBuffer.init T k).pushAll xs)
  rw [h1, LatestKBuffer.toList_init, List.nil_append, LatestKBuffer.capacity_init,
    length_takeLast] at h2
  omega

/-- Claim C8. For every Latest-K buffer of capacity `k > 0`, after pushing
`n > k` elements the size equals `k` and the retained elements, read by
logical index `0 .. k-1` (`0` the oldest), are exactly the last `k` pushed
elements in push order; after the capacity-th push the buffer reports full
and remains full under further pushes until `clear()` resets it. -/
theorem latestK_retains_last_k (k : Nat) (xs : List Nat) (hk : 0 < k)
    (hn : k < xs.length) :
    ((LatestKBuffer.init Nat k).pushAll xs).size = k ∧
    (∀ i, i < k →
      ((LatestKBuffer.init Nat k).pushAll xs).get i = xs.getD (xs.length - k + i) 0) ∧
    (∀ ys : List Nat, k ≤ ys.length → ((LatestKBuffer.init Nat k).pushAll ys).full = true) ∧
    ((LatestKBuffer.init Nat k).pushAll xs).clear.full = false ∧
    ((LatestKBuffer.init Nat k).pushAll xs).clear.size = 0 := by
  have hinv : ((LatestKBuffer.init Nat k).pushAll xs).Inv :=
    LatestKBuffer.Inv.pushAll (LatestKBuffer.Inv.init k hk) xs
  have hsize : ((LatestKBuffer.init Nat k).pushAll xs).size = k := by
    rw [LatestKBuffer.size_eq_min k hk xs]
    omega
  have htl := LatestKBuffer.toList_pushAll (LatestKBuffer.Inv.init (T := Nat) k hk) xs
  rw [LatestKBuffer.toList_init, List.nil_append, LatestKBuffer.capacity_init] at htl
  refine ⟨hsize, ?_, ?_, rfl, rfl⟩
  · intro i hi
    have hgd := LatestKBuffer.toList_getD ((LatestKBuffer.init Nat k).pushAll xs) i
      (by omega)
    rw [htl] at hgd
    rw [← hgd]
    show (takeLast k xs).getD i 0 = xs.getD (xs.length - k + i) 0
    simp [takeLast, List.getD_eq_getElem?_getD, List.getElem?_drop]
  · intro ys hys
    have hinvy : ((LatestKBuffer.init Nat k).pushAll ys).Inv :=
      LatestKBuffer.Inv.pushAll (LatestKBuffer.Inv.init k hk) ys
    have hsy : ((LatestKBuffer.init Nat k).pushAll ys).size = k := by
      rw [LatestKBuffer.size_eq_min k hk ys]
      omega
    have hcapy : ((LatestKBuffer.init Nat k).pushAll ys).capacity = k := by
      obtain ⟨-, -, -, -, -, -⟩ := hinvy
      have : ∀ (b : LatestKBuffer Nat) (zs : List Nat),
          (b.pushAll zs).capacity = b.capacity := by
        intro b zs
        induction zs generalizing b with
        | nil => rfl
        | cons z zs ih =>
          have : (b.pushAll (z :: zs)) = (b.push z).pushAll zs := rfl
          rw [this, ih]
          by_cases hfull : b.full = true
          · rw [LatestKBuffer.push_eq_of_full z hfull]
          · rw [LatestKBuffer.push_eq_of_not_full z (by revert hfull; cases b.full <;> simp)]
      exact this _ _
    have hfy := hinvy.2.2.2.2.2
    rw [hfy, hsy, hcapy]
    simp

/-- Witness for C8 at `k = 2`, pushes `[10, 20, 30]`. -/
theorem latestK_retains_last_k_witness :
    ((LatestKBuffer.init Nat 2).pushAll [10, 20, 30]).size = 2 ∧
    (∀ i, i < 2 →
      ((LatestKBuffer.init Nat 2).pushAll [10, 20, 30]).get i =
        [10, 20, 30].getD ([10, 20, 30].length - 2 + i) 0) ∧
    (∀ ys : List Nat, 2 ≤ ys.length →
      ((LatestKBuffer.init Nat 2).pushAll ys).full = true) ∧
    ((LatestKBuffer.init Nat 2).pushAll [10, 20, 30]).clear.full = false ∧
    ((LatestKBuffer.init Nat 2).pushAll [10, 20, 30]).clear.size = 0 :=
  latestK_retains_last_k 2 [10, 20, 30] (by decide) (by decide)

/-! ## Track store (src/src/trackManager.cpp, declarations in trackManager.hpp)

A track point carries six doubles, an `is_associated` flag and a timestamp.
The store only ever copies points and branches on `is_associated`; no
arithmetic is performed on the coordinates, so the numeric payload is
modelled by a single integer field (`lon`, holding the longitude scaled by
100 in the concrete scenarios) without loss of faithfulness. -/

structure TrackPoint where
  lon : Int
  isAssociated : Bool
deriving Repr, DecidableEq, Inhabited

/-- Models `TrackerHeader` (trackManager.hpp): id, extrapolation counter, point
count and state (`0` NORMAL, `1` EXTRAPOLATED, `2` TERMINATED, `3` fresh,
`-1` cleared/free). The default member initialisers give state `3`. -/
structure TrackerHeader where
  track_id : Nat
  extrapolation_count : Nat
  point_num : Nat
  state : Int
deriving Repr, DecidableEq

instance : Inhabited TrackerHeader :=
  ⟨{ track_id := 0, extrapolation_count := 0, point_num := 0, state := 3 }⟩

/-- Models `TrackerHeader::start(id)`. -/
def TrackerHeader.start (id : Nat) : TrackerHeader :=
  { track_id := id, extrapolation_count := 0, point_num := 0, state := 0 }

/-- Models `TrackerHeader::clear()`. -/
def TrackerHeader.clearH : TrackerHeader :=
  { track_id := 0, extrapolation_count := 0, point_num := 0, state := -1 }

/-- Models `TrackerContainer`: a header plus a latest-K buffer of points. -/
structure TrackerContainer where
  header : TrackerHeader
  data : LatestKBuffer TrackPoint
deriving Repr, DecidableEq

instance : Inhabited TrackerContainer :=
  ⟨{ header := default, data := LatestKBuffer.init TrackPoint 0 }⟩

/-- Models `TrackerContainer(point_size)`. -/
def TrackerContainer.init (point_size : Nat) : TrackerContainer :=
  { header := default, data := LatestKBuffer.init TrackPoint point_size }

/-- Models `TrackerContainer::clear()`: `header.clear(); data.clear()`. -/
def TrackerContainer.clearC (c : TrackerContainer) : TrackerContainer :=
  { header := TrackerHeader.clearH, data := c.data.clear }

/-- Models `MAX_EXTRAPOLATION_TIMES` (trackManager.cpp). -/
def MAX_EXTRAPOLATION_TIMES : Nat := 3

/-- The store: memory pool, id-to-slot map (`std::unordered_map`, modelled
as an association list: the code only uses `find`, `erase`, `operator[]`
insertion and in-place update of a found entry, none of which depend on
bucket order), free-slot list (a `std::vector` used as a stack at its back),
and the monotone next-id counter. -/
structure TrackerManager where
  buffer_pool : List TrackerContainer
  track_id_to_pool_index : List (Nat × Nat)
  free_slots : List Nat
  next_track_id : Nat
deriving Repr, DecidableEq

/-- Models `unordered_map::find`. -/
def mapFind (m : List (Nat × Nat)) (k : Nat) : Option Nat :=
  (m.find? (fun p => p.1 = k)).map (fun p => p.2)

/-- Models `unordered_map::operator[] = v`: overwrite the entry if the key exists,
otherwise insert a new one. -/
def mapInsert : List (Nat × Nat) → Nat → Nat → List (Nat × Nat)
  | [], k, v => [(k, v)]
  | p :: tl, k, v => if p.1 = k then (k, v) :: tl else p :: mapInsert tl k v

/-- Models `it->second = v` on the iterator returned by a successful `find`. -/
def mapSet (m : List (Nat × Nat)) (k v : Nat) : List (Nat × Nat) :=
  m.map (fun p => if p.1 = k then (k, v) else p)

/-- Models `unordered_map::erase(it)` for the iterator of key `k`. -/
def mapErase (m : List (Nat × Nat)) (k : Nat) : List (Nat × Nat) :=
  m.filter (fun p => p.1 ≠ k)

/-- Constructor `TrackerManager(track_size, point_size)`: `track_size`
containers each with a fresh buffer of capacity `point_size`; free slots
`0, 1, …, track_size-1` pushed in order (so the back is `track_size-1`);
next id starts at `1`. -/
def TrackerManager.init (track_size point_size : Nat) : TrackerManager :=
  { buffer_pool := List.replicate track_size (TrackerContainer.init point_size)
    track_id_to_pool_index := []
    free_slots := List.range track_size
    next_track_id := 1 }

/-- Models `TrackerManager::createTrack()`: pop a free slot from the back, register
`id → slot`, start the header, bump the id counter; returns `0` when the
pool is exhausted. -/
def TrackerManager.createTrack (m : TrackerManager) : Nat × TrackerManager :=
  match m.free_slots.getLast? with
  | none => (0, m)
  | some pool_index =>
    let free' := m.free_slots.dropLast
    let track_id := m.next_track_id
    let map' := mapInsert m.track_id_to_pool_index track_id pool_index
    let c := m.buffer_pool.getD pool_index default
    let pool' := m.buffer_pool.set pool_index { c with header := TrackerHeader.start track_id }
    (track_id, { buffer_pool := pool', track_id_to_pool_index := map',
                 free_slots := free', next_track_id := track_id + 1 })

/-- Models `TrackerManager::deleteTrack(track_id)`: unknown id fails; otherwise the
container is cleared, the mapping erased and the slot pushed to the back of
the free list. -/
def TrackerManager.deleteTrack (m : TrackerManager) (track_id : Nat) : Bool × TrackerManager :=
  match mapFind m.track_id_to_pool_index track_id with
  | none => (false, m)
  | some pool_index =>
    let pool' := m.buffer_pool.set pool_index
      ((m.buffer_pool.getD pool_index default).clearC)
    (true, { m with buffer_pool := pool',
                    track_id_to_pool_index := mapErase m.track_id_to_pool_index track_id,
                    free_slots := m.free_slots ++ [pool_index] })

/-- Models `TrackerManager::push_track_point(track_id, point)`: unknown id fails;
otherwise the point is pushed into the buffer, then: state `2` on entry
deletes the track (by the header's id) and reports failure; an associated
point decrements the extrapolation counter (`std::max(0, e-1)`, which is
truncated subtraction on the non-negative counter) and restores NORMAL; an
unassociated point under the bound increments it and sets EXTRAPOLATED;
otherwise the state becomes TERMINATED but the call still succeeds. -/
def TrackerManager.push_track_point (m : TrackerManager) (track_id : Nat)
    (point : TrackPoint) : Bool × TrackerManager :=
  match mapFind m.track_id_to_pool_index track_id with
  | none => (false, m)
  | some pool_index =>
    let track := m.buffer_pool.getD pool_index default
    let track := { track with data := track.data.push point }
    let m1 := { m with buffer_pool := m.buffer_pool.set pool_index track }
    if track.header.state = (2 : Int) then
      let (_, m2) := m1.deleteTrack track.header.track_id
      (false, m2)
    else
      let header := { track.header with point_num := track.data.size }
      let header :=
        if point.isAssociated then
          { header with extrapolation_count := header.extrapolation_count - 1, state := 0 }
        else if header.extrapolation_count < MAX_EXTRAPOLATION_TIMES then
          { header with extrapolation_count := header.extrapolation_count + 1, state := 1 }
        else
          { header with state := 2 }
      (true, { m1 with
        buffer_pool := m1.buffer_pool.set pool_index { track with header := header } })

/-- Models `TrackerManager::merge_tracks(source_track_id, target_track_id)`: both
ids must be live and both buffers must hold at least
`MAX_EXTRAPOLATION_TIMES` points; then the last three points of the target
buffer are overwritten with the last three of the source, the two headers
are swapped, the source id is repointed at the target slot, and
`deleteTrack(target_track_id)` runs. -/
def TrackerManager.merge_tracks (m : TrackerManager) (source_track_id target_track_id : Nat) :
    Bool × TrackerManager :=
  match mapFind m.track_id_to_pool_index target_track_id,
        mapFind m.track_id_to_pool_index source_track_id with
  | some target_pool_index, some source_pool_index =>
    let target_track := m.buffer_pool.getD target_pool_index default
    let source_track := m.buffer_pool.getD source_pool_index default
    let target_size := target_track.data.size
    let source_size := source_track.data.size
    if target_size < MAX_EXTRAPOLATION_TIMES ∨ source_size < MAX_EXTRAPOLATION_TIMES then
      (false, m)
    else
      -- for i = 1..MAX: target.data[target_size - i] = source.data[source_size - i]
      let newdata := (List.range MAX_EXTRAPOLATION_TIMES).foldl
        (fun d i => d.setAt (target_size - (i + 1))
          (source_track.data.get (source_size - (i + 1)))) target_track.data
      let pool1 := m.buffer_pool.set target_pool_index { target_track with data := newdata }
      -- std::swap(target_track.header, source_track.header)
      let t1 := pool1.getD target_pool_index default
      let s1 := pool1.getD source_pool_index default
      let pool2 := (pool1.set target_pool_index { t1 with header := s1.header }).set
        source_pool_index { s1 with header := t1.header }
      -- source_it->second = target_pool_index
      let map2 := mapSet m.track_id_to_pool_index source_track_id target_pool_index
      let m2 := { m with buffer_pool := pool2, track_id_to_pool_index := map2 }
      let (_, m3) := m2.deleteTrack target_track_id
      (true, m3)
  | _, _ => (false, m)

/-- Models `sizeof(commonData::TrackerHeader)`: four 4-byte fields under
`#pragma pack(4)`. -/
def sizeofTrackerHeader : Nat := 16

/-- Models `sizeof(commonData::track_point)`: six doubles (48), the bool plus
padding to the 8-aligned timestamp (8), and the 8-byte timestamp, under
`#pragma pack(8)`. -/
def sizeofTrackPoint : Nat := 64

/-- Models `TrackerManager::pack_track(buffer, track_id)`: unknown id yields `0`
bytes; otherwise the header is copied followed by all retained points
(`copyTo` with `max_points = size` copies exactly `size` elements), and the
byte count is returned. The store itself is never modified. -/
def TrackerManager.pack_track (m : TrackerManager) (track_id : Nat) : Nat :=
  match mapFind m.track_id_to_pool_index track_id with
  | none => 0
  | some pool_index =>
    let track := m.buffer_pool.getD pool_index default
    sizeofTrackerHeader + track.data.size * sizeofTrackPoint

/-- Models `TrackerManager::clearAll()`: clear every container, drop the map,
rebuild the free list as `0, …, n-1`, reset the id counter to `1`. -/
def TrackerManager.clearAll (m : TrackerManager) : TrackerManager :=
  { buffer_pool := m.buffer_pool.map TrackerContainer.clearC
    track_id_to_pool_index := []
    free_slots := List.range m.buffer_pool.length
    next_track_id := 1 }

/-- Models `TrackerManager::isValidTrack(track_id)`. -/
def TrackerManager.isValidTrack (m : TrackerManager) (track_id : Nat) : Bool :=
  (mapFind m.track_id_to_pool_index track_id).isSome

/-- Models `TrackerManager::getUsedCount()`. -/
def TrackerManager.getUsedCount (m : TrackerManager) : Nat :=
  m.track_id_to_pool_index.length

/-- Models `TrackerManager::getFreeCount()`. -/
def TrackerManager.getFreeCount (m : TrackerManager) : Nat :=
  m.free_slots.length

/-- Models `TrackerManager::getTotalCapacity()`. -/
def TrackerManager.getTotalCapacity (m : TrackerManager) : Nat :=
  m.buffer_pool.length

theorem mapFind_mapInsert_self (mp : List (Nat × Nat)) (k v : Nat) :
    mapFind (mapInsert mp k v) k = some v := by
  induction mp with
  | nil => simp [mapInsert, mapFind, List.find?]
  | cons hd tl ih =>
    by_cases hhd : hd.1 = k
    · simp [mapInsert, hhd, mapFind, List.find?]
    · simp only [mapInsert, hhd, if_false]
      simp only [mapFind, List.find?] at ih ⊢
      have hpd : (decide (hd.1 = k)) = false := by simp [hhd]
      rw [hpd]
      exact ih

theorem mapFind_mapErase_self (mp : List (Nat × Nat)) (k : Nat) :
    mapFind (mapErase mp k) k = none := by
  rw [mapFind, mapErase]
  have : (mp.filter (fun p => p.1 ≠ k)).find? (fun p => p.1 = k) = none := by
    rw [List.find?_eq_none]
    intro x hx
    have := (List.mem_filter.mp hx).2
    simpa using this
  rw [this]
  rfl

/-- The observable effect of `push_track_point` on a live, not-terminated
track: the point lands in the buffer, then the header is updated. -/
def pushedContainer (c : TrackerContainer) (p : TrackPoint) : TrackerContainer :=
  let c1 : TrackerContainer := { c with data := c.data.push p }
  let header := { c1.header with point_num := c1.data.size }
  let header :=
    if p.isAssociated then
      { header with extrapolation_count := header.extrapolation_count - 1, state := 0 }
    else if header.extrapolation_count < MAX_EXTRAPOLATION_TIMES then
      { header with extrapolation_count := header.extrapolation_count + 1, state := 1 }
    else
      { header with state := 2 }
  { c1 with header := header }

theorem push_track_point_live {m : TrackerManager} {id idx : Nat} (p : TrackPoint)
    (hfind : mapFind m.track_id_to_pool_index id = some idx)
    (hstate : (m.buffer_pool.getD idx default).header.state ≠ 2) :
    m.push_track_point id p =
      (true, { m with buffer_pool :=
        m.buffer_pool.set idx (pushedContainer (m.buffer_pool.getD idx default) p) }) := by
  unfold TrackerManager.push_track_point
  rw [hfind]
  simp only [hstate, if_false]
  rw [List.set_set]
  rfl

theorem push_track_point_terminated {m : TrackerManager} {id idx : Nat} (p : TrackPoint)
    (hfind : mapFind m.track_id_to_pool_index id = some idx)
    (hstate : (m.buffer_pool.getD idx default).header.state = 2)
    (hid : (m.buffer_pool.getD idx default).header.track_id = id) :
    (m.push_track_point id p).1 = false ∧
    ((m.push_track_point id p).2).isValidTrack id = false := by
  unfold TrackerManager.push_track_point
  rw [hfind]
  simp only [hstate, if_true]
  unfold TrackerManager.deleteTrack
  have hfind1 : mapFind m.track_id_to_pool_index
      ((m.buffer_pool.getD idx default).header.track_id) = some idx := by
    rw [hid]; exact hfind
  simp only [hid, hfind, hfind1]
  constructor
  · trivial
  · show (TrackerManager.isValidTrack _ id) = false
    unfold TrackerManager.isValidTrack
    rw [mapFind_mapErase_self]
    rfl

/-- The header a live id resolves to (`default` for a dead id; only ever
used at live ids in the statements below). -/
def TrackerManager.headerOf (m : TrackerManager) (id : Nat) : TrackerHeader :=
  match mapFind m.track_id_to_pool_index id with
  | none => default
  | some idx => (m.buffer_pool.getD idx default).header

theorem createTrack_eq {m : TrackerManager} {idx : Nat}
    (hfree : m.free_slots.getLast? = some idx) :
    m.createTrack = (m.next_track_id,
      { buffer_pool := m.buffer_pool.set idx
          { m.buffer_pool.getD idx default with header := TrackerHeader.start m.next_track_id }
        track_id_to_pool_index := mapInsert m.track_id_to_pool_index m.next_track_id idx
        free_slots := m.free_slots.dropLast
        next_track_id := m.next_track_id + 1 }) := by
  unfold TrackerManager.createTrack
  rw [hfree]

theorem pushedContainer_header_unassoc (c : TrackerContainer) (p : TrackPoint)
    (hp : p.isAssociated = false) :
    (pushedContainer c p).header =
      if c.header.extrapolation_count < MAX_EXTRAPOLATION_TIMES then
        { c.header with point_num := (c.data.push p).size,
                        extrapolation_count := c.header.extrapolation_count + 1, state := 1 }
      else
        { c.header with point_num := (c.data.push p).size, state := 2 } := by
  simp only [pushedContainer, hp]
  rfl

theorem pushedContainer_track_id (c : TrackerContainer) (p : TrackPoint) :
    (pushedContainer c p).header.track_id = c.header.track_id := by
  unfold pushedContainer
  by_cases hp : p.isAssociated <;> simp [hp] <;>
    by_cases he : c.header.extrapolation_count < MAX_EXTRAPOLATION_TIMES <;> simp [he]

/-- One unassociated push on a live, not-yet-terminated track: success, the
map and pool length unchanged, and the slot header's counter/state step as
the code prescribes. -/
theorem push_step_unassoc {m : TrackerManager} {id idx : Nat} {p : TrackPoint} {e : Nat}
    (hfind : mapFind m.track_id_to_pool_index id = some idx)
    (hlen : idx < m.buffer_pool.length)
    (hp : p.isAssociated = false)
    (hext : (m.buffer_pool.getD idx default).header.extrapolation_count = e)
    (hstate : (m.buffer_pool.getD idx default).header.state ≠ 2)
    (hidh : (m.buffer_pool.getD idx default).header.track_id = id) :
    (m.push_track_point id p).1 = true ∧
    (m.push_track_point id p).2.track_id_to_pool_index = m.track_id_to_pool_index ∧
    (m.push_track_point id p).2.buffer_pool.length = m.buffer_pool.length ∧
    ((m.push_track_point id p).2.buffer_pool.getD idx default).header.track_id = id ∧
    ((m.push_track_point id p).2.buffer_pool.getD idx default).header.extrapolation_count =
      (if e < MAX_EXTRAPOLATION_TIMES then e + 1 else e) ∧
    ((m.push_track_point id p).2.buffer_pool.getD idx default).header.state =
      (if e < MAX_EXTRAPOLATION_TIMES then 1 else 2) := by
  rw [push_track_point_live p hfind hstate]
  dsimp only
  have hget : ((m.buffer_pool.set idx
      (pushedContainer (m.buffer_pool.getD idx default) p)).getD idx default) =
      pushedContainer (m.buffer_pool.getD idx default) p :=
    getD_set_self _ _ _ hlen
  rw [hget]
  refine ⟨rfl, rfl, by simp, ?_, ?_, ?_⟩
  · rw [pushedContainer_track_id]
    exact hidh
  · rw [pushedContainer_header_unassoc _ _ hp, hext]
    by_cases hlt : e < MAX_EXTRAPOLATION_TIMES <;> simp [hlt] <;>
      simp_all [List.getD_eq_getElem?_getD]
  · rw [pushedContainer_header_unassoc _ _ hp, hext]
    by_cases hlt : e < MAX_EXTRAPOLATION_TIMES <;> simp [hlt] <;>
      simp_all [List.getD_eq_getElem?_getD]

theorem isValidTrack_of_find {m : TrackerManager} {id idx : Nat}
    (h : mapFind m.track_id_to_pool_index id = some idx) :
    m.isValidTrack id = true := by
  unfold TrackerManager.isValidTrack
  rw [h]
  rfl

theorem headerOf_of_find {m : TrackerManager} {id idx : Nat}
    (h : mapFind m.track_id_to_pool_index id = some idx) :
    m.headerOf id = (m.buffer_pool.getD idx default).header := by
  unfold TrackerManager.headerOf
  rw [h]

/-- Claim C2 (amended). A freshly created track given unassociated pushes:
the first three succeed and leave the track EXTRAPOLATED with counter
1, 2, 3; the fourth push also succeeds, leaving the counter at 3 and the
state TERMINATED with the id still valid; only the fifth push returns
failure and deletes the track within that call, so the id is invalid once
the fifth push returns. -/
theorem push_lifecycle_terminates_on_fifth (m : TrackerManager) (idx : Nat)
    (p1 p2 p3 p4 p5 : TrackPoint) (id : Nat) (m0 m1 m2 m3 m4 : TrackerManager)
    (r1 r2 r3 r4 : Bool)
    (hfree : m.free_slots.getLast? = some idx)
    (hlen : idx < m.buffer_pool.length)
    (hp1 : p1.isAssociated = false) (hp2 : p2.isAssociated = false)
    (hp3 : p3.isAssociated = false) (hp4 : p4.isAssociated = false)
    (hcr : m.createTrack = (id, m0))
    (hs1 : m0.push_track_point id p1 = (r1, m1))
    (hs2 : m1.push_track_point id p2 = (r2, m2))
    (hs3 : m2.push_track_point id p3 = (r3, m3))
    (hs4 : m3.push_track_point id p4 = (r4, m4)) :
    r1 = true ∧ (m1.headerOf id).state = 1 ∧ (m1.headerOf id).extrapolation_count = 1 ∧
    r2 = true ∧ (m2.headerOf id).state = 1 ∧ (m2.headerOf id).extrapolation_count = 2 ∧
    r3 = true ∧ (m3.headerOf id).state = 1 ∧ (m3.headerOf id).extrapolation_count = 3 ∧
    r4 = true ∧ (m4.headerOf id).state = 2 ∧ (m4.headerOf id).extrapolation_count = 3 ∧
    m4.isValidTrack id = true ∧
    (m4.push_track_point id p5).1 = false ∧
    ((m4.push_track_point id p5).2).isValidTrack id = false := by
  rw [createTrack_eq hfree] at hcr
  injection hcr with hid hm0
  subst hid
  -- facts about the state right after createTrack
  have hfind0 : mapFind m0.track_id_to_pool_index m.next_track_id = some idx := by
    rw [← hm0]
    exact mapFind_mapInsert_self _ _ _
  have hlen0 : idx < m0.buffer_pool.length := by
    rw [← hm0]
    show idx < (m.buffer_pool.set idx _).length
    simpa using hlen
  have hd0 : (m0.buffer_pool.getD idx default).header =
      TrackerHeader.start m.next_track_id := by
    rw [← hm0]
    show ((m.buffer_pool.set idx
      { m.buffer_pool.getD idx default with
        header := TrackerHeader.start m.next_track_id }).getD idx default).header = _
    rw [getD_set_self _ _ _ hlen]
  -- step 1
  have H1 := @push_step_unassoc m0 m.next_track_id idx p1 0 hfind0 hlen0 hp1
    (by rw [hd0]; rfl) (by rw [hd0]; intro h; cases h) (by rw [hd0]; rfl)
  rw [hs1] at H1
  dsimp only at H1
  obtain ⟨hr1, hmap1, hlen1, hid1, hext1, hst1⟩ := H1
  rw [if_pos (show 0 < MAX_EXTRAPOLATION_TIMES by decide)] at hext1 hst1
  have hfind1 : mapFind m1.track_id_to_pool_index m.next_track_id = some idx := by
    rw [hmap1]; exact hfind0
  -- step 2
  have H2 := @push_step_unassoc m1 m.next_track_id idx p2 1 hfind1
    (by rw [hlen1]; exact hlen0) hp2 hext1 (by rw [hst1]; intro h; cases h) hid1
  rw [hs2] at H2
  dsimp only at H2
  obtain ⟨hr2, hmap2, hlen2, hid2, hext2, hst2⟩ := H2
  rw [if_pos (show 1 < MAX_EXTRAPOLATION_TIMES by decide)] at hext2 hst2
  have hfind2 : mapFind m2.track_id_to_pool_index m.next_track_id = some idx := by
    rw [hmap2]; exact hfind1
  -- step 3
  have H3 := @push_step_unassoc m2 m.next_track_id idx p3 2 hfind2
    (by rw [hlen2, hlen1]; exact hlen0) hp3 hext2
    (by rw [hst2]; intro h; cases h) hid2
  rw [hs3] at H3
  dsimp only at H3
  obtain ⟨hr3, hmap3, hlen3, hid3, hext3, hst3⟩ := H3
  rw [if_pos (show 2 < MAX_EXTRAPOLATION_TIMES by decide)] at hext3 hst3
  have hfind3 : mapFind m3.track_id_to_pool_index m.next_track_id = some idx := by
    rw [hmap3]; exact hfind2
  -- step 4: counter is already 3, so the state becomes TERMINATED but the
  -- call still succeeds
  have H4 := @push_step_unassoc m3 m.next_track_id idx p4 3 hfind3
    (by rw [hlen3, hlen2, hlen1]; exact hlen0) hp4 hext3
    (by rw [hst3]; intro h; cases h) hid3
  rw [hs4] at H4
  dsimp only at H4
  obtain ⟨hr4, hmap4, hlen4, hid4, hext4, hst4⟩ := H4
  rw [if_neg (show ¬ 3 < MAX_EXTRAPOLATION_TIMES by decide)] at hext4 hst4
  have hfind4 : mapFind m4.track_id_to_pool_index m.next_track_id = some idx := by
    rw [hmap4]; exact hfind3
  -- step 5: state 2 is observed on entry, the track is deleted, the call fails
  have H5 := @push_track_point_terminated m4 m.next_track_id idx p5
    hfind4 hst4 hid4
  refine ⟨hr1, ?_, ?_, hr2, ?_, ?_, hr3, ?_, ?_, hr4, ?_, ?_, ?_, H5.1, H5.2⟩
  · rw [headerOf_of_find hfind1]; exact hst1
  · rw [headerOf_of_find hfind1]; exact hext1
  · rw [headerOf_of_find hfind2]; exact hst2
  · rw [headerOf_of_find hfind2]; exact hext2
  · rw [headerOf_of_find hfind3]; exact hst3
  · rw [headerOf_of_find hfind3]; exact hext3
  · rw [headerOf_of_find hfind4]; exact hst4
  · rw [headerOf_of_find hfind4]; exact hext4
  · exact isValidTrack_of_find hfind4

/-- A point with `is_associated = true`; `lon` holds the longitude scaled by
100 in the concrete scenarios. -/
def assocPt (l : Int) : TrackPoint := { lon := l, isAssociated := true }

/-- A point with `is_associated = false`. -/
def unassocPt (l : Int) : TrackPoint := { lon := l, isAssociated := false }

/-- Push a list of points into one track, oldest first. -/
def pushList (m : TrackerManager) (id : Nat) (ps : List TrackPoint) : TrackerManager :=
  ps.foldl (fun mm p => (mm.push_track_point id p).2) m

/-- The store of spec scenario 1: capacity-1 store, one fresh track, then
four unassociated pushes; the pair is the result of the fourth push. -/
def lifecycleDemo : Bool × TrackerManager :=
  let m0 := (TrackerManager.init 1 8).createTrack.2
  let m3 := pushList m0 1 [unassocPt 0, unassocPt 1, unassocPt 2]
  m3.push_track_point 1 (unassocPt 3)

/-- Counterexample to claim C2 as stated: in the concrete scenario the
fourth unassociated push returns success (not FAILURE), and the track is
still valid when it returns — deletion only happens on the next push. -/
theorem fourth_unassoc_push_succeeds :
    lifecycleDemo.1 = true ∧ lifecycleDemo.2.isValidTrack 1 = true := by decide

/-- Witness for the amended claim C2 on the concrete scenario of
`lifecycleDemo`. -/
theorem push_lifecycle_terminates_on_fifth_witness :
    ((((((TrackerManager.init 1 8).createTrack.2.push_track_point 1
      (unassocPt 0)).2.push_track_point 1 (unassocPt 1)).2.push_track_point 1
      (unassocPt 2)).2.push_track_point 1 (unassocPt 3)).2.push_track_point 1
      (unassocPt 4)).1 = false ∧
    ((((((TrackerManager.init 1 8).createTrack.2.push_track_point 1
      (unassocPt 0)).2.push_track_point 1 (unassocPt 1)).2.push_track_point 1
      (unassocPt 2)).2.push_track_point 1 (unassocPt 3)).2.push_track_point 1
      (unassocPt 4)).2.isValidTrack 1 = false := by
  have h := push_lifecycle_terminates_on_fifth (TrackerManager.init 1 8) 0
    (unassocPt 0) (unassocPt 1) (unassocPt 2) (unassocPt 3) (unassocPt 4)
    1 _ _ _ _ _ _ _ _ _ (by decide) (by decide) rfl rfl rfl rfl rfl rfl rfl rfl rfl
  exact ⟨h.2.2.2.2.2.2.2.2.2.2.2.2.2.1, h.2.2.2.2.2.2.2.2.2.2.2.2.2.2⟩

/-- The store of spec scenario 2: capacity-2 store, tracks `1` (slot 1) and
`2` (slot 0), five associated points each with scaled longitudes
`100 + i` resp. `200 + i`. -/
def mergeDemoPre : TrackerManager :=
  let m0 := TrackerManager.init 2 8
  let m1 := m0.createTrack.2
  let m2 := m1.createTrack.2
  let mA := pushList m2 1 [assocPt 100, assocPt 101, assocPt 102, assocPt 103, assocPt 104]
  pushList mA 2 [assocPt 200, assocPt 201, assocPt 202, assocPt 203, assocPt 204]

/-- Models `merge_tracks(source = 2, target = 1)` on that store. -/
def mergeDemo : Bool × TrackerManager := mergeDemoPre.merge_tracks 2 1

/-- Claim C1 (code bug evidence). On spec scenario 2 the merge reports
success, but afterwards the target id `1` is the one that is invalid while
the source id `2` remains live; the slot that id `2` maps to (slot 1, the
old target slot holding the merged points) has been cleared and pushed onto
the free list, and the source's old slot 0 is left orphaned — still holding
the swapped-in header with id `1` and the source's five points. This
contradicts both the claim and the function's own comment, which says the
source's pool slot is the one released. -/
theorem merge_tracks_corrupts_store :
    mergeDemo.1 = true ∧
    mergeDemo.2.isValidTrack 1 = false ∧
    mergeDemo.2.isValidTrack 2 = true ∧
    mapFind mergeDemo.2.track_id_to_pool_index 2 = some 1 ∧
    (mergeDemo.2.buffer_pool.getD 1 default).data.size = 0 ∧
    (mergeDemo.2.buffer_pool.getD 1 default).header.state = -1 ∧
    mergeDemo.2.free_slots = [1] ∧
    (mergeDemo.2.buffer_pool.getD 0 default).header.track_id = 1 ∧
    ((mergeDemo.2.buffer_pool.getD 0 default).data.toList.map TrackPoint.lon) =
      [200, 201, 202, 203, 204] := by decide

/-- How many references (free-list entries plus map entries) point at pool
slot `i`. -/
def slotRefCount (m : TrackerManager) (i : Nat) : Nat :=
  m.free_slots.count i + (m.track_id_to_pool_index.filter (fun p => p.2 = i)).length

/-- The pool-partition invariant of the spec: every slot is either on the
free-slot list or referenced by exactly one id in the map — never both,
never neither. -/
def SlotPartition (m : TrackerManager) : Prop :=
  ∀ i, i < m.buffer_pool.length → slotRefCount m i = 1

instance (m : TrackerManager) : Decidable (SlotPartition m) :=
  Nat.decidableBallLT _ _

/-- Claim C3 (code bug evidence). The partition invariant holds up to the
merge, and `|map| + |free list| = track_capacity` still holds afterwards,
but the merge of spec scenario 2 leaves slot `1` referenced twice (once by
the free list and once by id `2`) and slot `0` referenced by nothing. -/
theorem slot_partition_violated_by_merge :
    SlotPartition mergeDemoPre ∧
    ¬ SlotPartition mergeDemo.2 ∧
    slotRefCount mergeDemo.2 1 = 2 ∧
    slotRefCount mergeDemo.2 0 = 0 ∧
    mergeDemo.2.getUsedCount + mergeDemo.2.getFreeCount =
      mergeDemo.2.getTotalCapacity := by decide

/-- Claim C10. Failed operations leave the whole store untouched: any of
`deleteTrack`, `push_track_point` or `pack_track` on an id absent from the
live map returns failure (`false`, resp. `0` bytes) with the store returned
exactly as given; `merge_tracks` does the same when either id is unknown,
and also when both ids are live but either track holds fewer than
`MAX_EXTRAPOLATION_TIMES` points. -/
theorem failed_ops_leave_store_unchanged (m : TrackerManager) (id src tgt : Nat)
    (p : TrackPoint) :
    (mapFind m.track_id_to_pool_index id = none →
      m.deleteTrack id = (false, m) ∧
      m.push_track_point id p = (false, m) ∧
      m.pack_track id = 0) ∧
    ((mapFind m.track_id_to_pool_index tgt = none ∨
      mapFind m.track_id_to_pool_index src = none) →
      m.merge_tracks src tgt = (false, m)) ∧
    (∀ ti si, mapFind m.track_id_to_pool_index tgt = some ti →
      mapFind m.track_id_to_pool_index src = some si →
      ((m.buffer_pool.getD ti default).data.size < MAX_EXTRAPOLATION_TIMES ∨
       (m.buffer_pool.getD si default).data.size < MAX_EXTRAPOLATION_TIMES) →
      m.merge_tracks src tgt = (false, m)) := by
  refine ⟨?_, ?_, ?_⟩
  · intro h
    refine ⟨?_, ?_, ?_⟩
    · unfold TrackerManager.deleteTrack
      rw [h]
    · unfold TrackerManager.push_track_point
      rw [h]
    · unfold TrackerManager.pack_track
      rw [h]
  · intro h
    unfold TrackerManager.merge_tracks
    rcases h with h | h
    · rw [h]
    · rw [h]
      cases mapFind m.track_id_to_pool_index tgt <;> rfl
  · intro ti si hti hsi hsz
    unfold TrackerManager.merge_tracks
    rw [hti, hsi]
    dsimp only
    rw [if_pos hsz]

/-- Witness for C10: a fresh 2-slot store rejects id `7` everywhere, and a
store with two one-point tracks rejects their merge. -/
theorem failed_ops_leave_store_unchanged_witness :
    ((TrackerManager.init 2 4).deleteTrack 7 = (false, TrackerManager.init 2 4) ∧
     (TrackerManager.init 2 4).push_track_point 7 (assocPt 0) =
       (false, TrackerManager.init 2 4) ∧
     (TrackerManager.init 2 4).pack_track 7 = 0) ∧
    (TrackerManager.init 2 4).merge_tracks 1 2 = (false, TrackerManager.init 2 4) ∧
    (let m2 := pushList ((TrackerManager.init 2 4).createTrack.2.createTrack.2) 1
        [assocPt 5]
     let m3 := pushList m2 2 [assocPt 6]
     m3.merge_tracks 2 1 = (false, m3)) := by
  refine ⟨?_, ?_, ?_⟩
  · exact ⟨((failed_ops_leave_store_unchanged (TrackerManager.init 2 4) 7 1 2
        (assocPt 0)).1 (by decide)).1,
      ((failed_ops_leave_store_unchanged (TrackerManager.init 2 4) 7 1 2
        (assocPt 0)).1 (by decide)).2.1,
      ((failed_ops_leave_store_unchanged (TrackerManager.init 2 4) 7 1 2
        (assocPt 0)).1 (by decide)).2.2⟩
  · exact (failed_ops_leave_store_unchanged (TrackerManager.init 2 4) 7 1 2
      (assocPt 0)).2.1 (Or.inl (by decide))
  · exact (failed_ops_leave_store_unchanged _ 7 2 1 (assocPt 0)).2.2 1 0
      (by decide) (by decide) (by decide)

/-! ## Command scheduler (src/src/ManagementService.cpp)

`process_create` walks the batch of 4-point arrays; for each array it calls
`create_track` and then pushes the four points, and on any push failure it
deletes that track and RETURNS from the whole function (the `return` on
line 373 exits `process_create`, not just the current array). The second
component of the Lean model counts how many arrays the loop body was entered
for, mirroring the number of `create_track` calls the code makes. -/

/-- The inner point loop of one array in `process_create`: push each point;
on failure delete the track and report failure. -/
def handleCreateLoop (m : TrackerManager) (track_id : Nat) :
    List TrackPoint → TrackerManager × Bool
  | [] => (m, true)
  | p :: ps =>
    let s := m.push_track_point track_id p
    if s.1 then handleCreateLoop s.2 track_id ps
    else ((s.2.deleteTrack track_id).2, false)

/-- One iteration of the array loop in `process_create`: `create_track`
(id `0` on a full pool is logged but the point loop still runs and its
pushes fail), then the point loop. -/
def handleCreateArray (m : TrackerManager) (arr : List TrackPoint) : TrackerManager × Bool :=
  let s := m.createTrack
  handleCreateLoop s.2 s.1 arr

/-- Models `process_create`: handle the arrays in order; a failing array stops the
whole batch (`return`). Returns the final store and the number of arrays
whose loop body ran. -/
def process_create (m : TrackerManager) : List (List TrackPoint) → TrackerManager × Nat
  | [] => (m, 0)
  | arr :: rest =>
    let s := handleCreateArray m arr
    if s.2 then
      let s' := process_create s.1 rest
      (s'.1, s'.2 + 1)
    else (s.1, 1)

/-- Counterexample to claim C6 as stated: on a capacity-1 store, a CREATE
batch of three 4-point arrays attempts only the first two arrays — the
second array's pushes fail (its `create_track` returned id 0), and the
`return` abandons the third array entirely, so the batch is not handled
independently. -/
theorem process_create_abandons_later_arrays :
    (process_create (TrackerManager.init 1 8)
      [[assocPt 1, assocPt 2, assocPt 3, assocPt 4],
       [assocPt 5, assocPt 6, assocPt 7, assocPt 8],
       [assocPt 9, assocPt 10, assocPt 11, assocPt 12]]).2 = 2 ∧
    [[assocPt 1, assocPt 2, assocPt 3, assocPt 4],
     [assocPt 5, assocPt 6, assocPt 7, assocPt 8],
     [assocPt 9, assocPt 10, assocPt 11, assocPt 12]].length = 3 := by decide

/-- Claim C6 (amended). A `push_point` failure while populating the track of
one array rolls that track back via `delete_track` (inside
`handleCreateLoop`) and then aborts the remainder of the batch: the
function returns right away with exactly that one array attempted, and no
later array is attempted. -/
theorem process_create_aborts_on_failure (m : TrackerManager) (arr : List TrackPoint)
    (rest : List (List TrackPoint)) (h : (handleCreateArray m arr).2 = false) :
    process_create m (arr :: rest) = ((handleCreateArray m arr).1, 1) := by
  have hx : handleCreateArray m arr = ((handleCreateArray m arr).1, false) :=
    Prod.ext rfl h
  simp only [process_create]
  rw [hx]
  simp

/-- Witness for the amended C6: a zero-capacity store fails the first array
(`create_track` returns 0), and the second array is never attempted. -/
theorem process_create_aborts_on_failure_witness :
    process_create (TrackerManager.init 0 8)
      [[assocPt 1, assocPt 2, assocPt 3, assocPt 4],
       [assocPt 5, assocPt 6, assocPt 7, assocPt 8]] =
      ((handleCreateArray (TrackerManager.init 0 8)
        [assocPt 1, assocPt 2, assocPt 3, assocPt 4]).1, 1) :=
  process_create_aborts_on_failure (TrackerManager.init 0 8)
    [assocPt 1, assocPt 2, assocPt 3, assocPt 4]
    [[assocPt 5, assocPt 6, assocPt 7, assocPt 8]] (by decide)

/-- Models `ManagementService::CommandType`. -/
inductive CommandType where
  | DRAW
  | MERGE
  | CREATE
  | ADD
  | CLEAR_ALL
deriving DecidableEq, Repr

/-- A queued command: its `type` tag plus an abstract payload handle (`tag`)
that identifies the command, so ordering statements can speak about
individual commands. -/
structure Command where
  ctype : CommandType
  tag : Nat
deriving DecidableEq, Repr

def isType (t : CommandType) (c : Command) : Bool := c.ctype = t

/-- The queue scan inside `process_commands_by_type`: pop every command,
keep the first one of the requested type, push the others back in their
original order. -/
def scanForType : List Command → CommandType → Option Command × List Command
  | [], _ => (none, [])
  | c :: rest, t =>
    if c.ctype = t then (some c, rest)
    else
      let s := scanForType rest t
      (s.1, c :: s.2)

theorem scanForType_some_length : ∀ (q : List Command) (t : CommandType)
    (c : Command) (r : List Command),
    scanForType q t = (some c, r) → r.length + 1 = q.length := by
  intro q
  induction q with
  | nil => intro t c r h; cases h
  | cons hd rest ih =>
    intro t c r h
    by_cases hhd : hd.ctype = t
    · simp only [scanForType, hhd, if_true] at h
      injection h with h1 h2
      rw [← h2]
      rfl
    · simp only [scanForType, hhd, if_false] at h
      injection h with h1 h2
      cases hs : scanForType rest t with
      | mk f r' =>
        rw [hs] at h1 h2
        dsimp at h1 h2
        rw [← h2, List.length_cons]
        have := ih t c r' (by rw [hs, h1])
        simp [this]

/-- The outer loop of `process_commands_by_type`: repeatedly scan for and
process the next command of type `t` until none is found; returns the
processed commands in processing order and the remaining queue. -/
def processByType (q : List Command) (t : CommandType) : List Command × List Command :=
  match h : scanForType q t with
  | (none, q') => ([], q')
  | (some c, q') =>
    let s := processByType q' t
    (c :: s.1, s.2)
termination_by q.length
decreasing_by
  have := scanForType_some_length q t c q' h
  omega

/-- The fixed priority order of `worker_thread`. -/
def priorities : List CommandType :=
  [CommandType.DRAW, CommandType.MERGE, CommandType.CREATE, CommandType.ADD,
   CommandType.CLEAR_ALL]

/-- One pass of `worker_thread` over the given type list: process every
command of each type in turn, accumulating the processing order. -/
def drainAll (q : List Command) : List CommandType → List Command × List Command
  | [] => ([], q)
  | t :: ts =>
    let s := processByType q t
    let s' := drainAll s.2 ts
    (s.1 ++ s'.1, s'.2)

/-- One full wake of the worker with no concurrent enqueues: since the pass
covers all five types, the queue is empty afterwards and the worker sleeps,
so this is the complete processing order for a fixed queue content. -/
def workerDrain (q : List Command) : List Command × List Command :=
  drainAll q priorities

theorem scanForType_none (q : List Command) (t : CommandType) (r : List Command)
    (h : scanForType q t = (none, r)) :
    r = q ∧ q.filter (isType t) = [] := by
  induction q generalizing r with
  | nil =>
    simp only [scanForType] at h
    injection h with h1 h2
    exact ⟨h2.symm, rfl⟩
  | cons hd rest ih =>
    by_cases hhd : hd.ctype = t
    · simp only [scanForType, hhd, if_true] at h
      injection h with h1 h2
      cases h1
    · simp only [scanForType, hhd, if_false] at h
      injection h with h1 h2
      have hs : scanForType rest t = (none, (scanForType rest t).2) := Prod.ext h1 rfl
      obtain ⟨hr, hf⟩ := ih _ hs
      constructor
      · rw [← h2, hr]
      · have hhd' : isType t hd = false := by simp [isType, hhd]
        simp [List.filter_cons, hhd', hf]

theorem scanForType_some (q : List Command) (t : CommandType) (c : Command)
    (r : List Command) (h : scanForType q t = (some c, r)) :
    isType t c = true ∧
    q.filter (isType t) = c :: r.filter (isType t) ∧
    ∀ p : Command → Bool, (∀ x, isType t x = true → p x = false) →
      q.filter p = r.filter p := by
  induction q generalizing r with
  | nil =>
    simp only [scanForType] at h
    injection h with h1 h2
    cases h1
  | cons hd rest ih =>
    by_cases hhd : hd.ctype = t
    · simp only [scanForType, hhd, if_true] at h
      injection h with h1 h2
      injection h1 with h1
      subst h1
      subst h2
      have hch : isType t hd = true := by simp [isType, hhd]
      refine ⟨hch, by simp [List.filter_cons, hch], ?_⟩
      intro p hp
      simp [List.filter_cons, hp hd hch]
    · simp only [scanForType, hhd, if_false] at h
      injection h with h1 h2
      have hs : scanForType rest t = (some c, (scanForType rest t).2) := Prod.ext h1 rfl
      obtain ⟨hc, hft, hfp⟩ := ih _ hs
      subst h2
      have hhd' : isType t hd = false := by simp [isType, hhd]
      refine ⟨hc, ?_, ?_⟩
      · simp [List.filter_cons, hhd', hft]
      · intro p hp
        cases hph : p hd <;> simp [List.filter_cons, hph, hfp p hp]

theorem processByType_eq (q : List Command) (t : CommandType) :
    processByType q t = (q.filter (isType t), q.filter (fun c => ! isType t c)) := by
  suffices H : ∀ (n : Nat) (q : List Command), q.length = n →
      processByType q t = (q.filter (isType t), q.filter (fun c => ! isType t c)) from
    H q.length q rfl
  intro n
  induction n using Nat.strong_induction_on with
  | _ n ih =>
  intro q hn
  unfold processByType
  split
  next q' heq =>
    obtain ⟨hq, hfil⟩ := scanForType_none q t q' heq
    have hall : q.filter (fun c => ! isType t c) = q := by
      apply List.filter_eq_self.mpr
      intro a ha
      have := (List.filter_eq_nil_iff.mp hfil) a ha
      simpa using this
    rw [hq, hfil, hall]
  next c q' heq =>
    have hlen := scanForType_some_length q t c q' heq
    obtain ⟨hc, hft, hfp⟩ := scanForType_some q t c q' heq
    have ihq := ih q'.length (by omega) q' rfl
    show (c :: (processByType q' t).1, (processByType q' t).2) = _
    rw [ihq]
    refine Prod.ext ?_ ?_
    · show c :: q'.filter (isType t) = q.filter (isType t)
      rw [hft]
    · show q'.filter (fun c => ! isType t c) = q.filter (fun c => ! isType t c)
      have := hfp (fun c => ! isType t c) (fun x hx => by simp [hx])
      rw [this]

theorem filter_not_other (t t' : CommandType) (hne : t' ≠ t) (l : List Command) :
    (l.filter (fun c => ! isType t c)).filter (isType t') = l.filter (isType t') := by
  rw [List.filter_filter]
  apply List.filter_congr
  intro a _
  by_cases h : a.ctype = t'
  · have h1 : isType t' a = true := by simp [isType, h]
    have h2 : isType t a = false := by simp [isType, h, hne]
    simp [h1, h2]
  · have h1 : isType t' a = false := by simp [isType, h]
    simp [h1]

theorem all_types_filtered (q : List Command) :
    ((((q.filter (fun c => ! isType CommandType.DRAW c)).filter
      (fun c => ! isType CommandType.MERGE c)).filter
      (fun c => ! isType CommandType.CREATE c)).filter
      (fun c => ! isType CommandType.ADD c)).filter
      (fun c => ! isType CommandType.CLEAR_ALL c) = [] := by
  rw [List.filter_filter, List.filter_filter, List.filter_filter, List.filter_filter]
  apply List.filter_eq_nil_iff.mpr
  intro a _
  cases hct : a.ctype <;> simp [isType, hct]

theorem workerDrain_eq (q : List Command) :
    workerDrain q =
      (q.filter (isType CommandType.DRAW) ++ q.filter (isType CommandType.MERGE) ++
        q.filter (isType CommandType.CREATE) ++ q.filter (isType CommandType.ADD) ++
        q.filter (isType CommandType.CLEAR_ALL), []) := by
  unfold workerDrain priorities
  simp only [drainAll, processByType_eq]
  rw [filter_not_other CommandType.DRAW CommandType.MERGE (by decide),
    filter_not_other CommandType.MERGE CommandType.CREATE (by decide),
    filter_not_other CommandType.DRAW CommandType.CREATE (by decide),
    filter_not_other CommandType.CREATE CommandType.ADD (by decide),
    filter_not_other CommandType.MERGE CommandType.ADD (by decide),
    filter_not_other CommandType.DRAW CommandType.ADD (by decide),
    filter_not_other CommandType.ADD CommandType.CLEAR_ALL (by decide),
    filter_not_other CommandType.CREATE CommandType.CLEAR_ALL (by decide),
    filter_not_other CommandType.MERGE CommandType.CLEAR_ALL (by decide),
    filter_not_other CommandType.DRAW CommandType.CLEAR_ALL (by decide),
    all_types_filtered]
  simp [List.append_assoc]

/-- The strict priority rank of each command class
(`DRAW > MERGE > CREATE > ADD > CLEAR_ALL`, rank 0 highest). -/
def prio : CommandType → Nat
  | CommandType.DRAW => 0
  | CommandType.MERGE => 1
  | CommandType.CREATE => 2
  | CommandType.ADD => 3
  | CommandType.CLEAR_ALL => 4

theorem mem_filter_ctype {q : List Command} {t : CommandType} {a : Command}
    (ha : a ∈ q.filter (isType t)) : a.ctype = t := by
  have := (List.mem_filter.mp ha).2
  simpa [isType] using this

theorem filter_block (t t' : CommandType) (q : List Command) :
    (q.filter (isType t')).filter (isType t) =
      if t' = t then q.filter (isType t) else [] := by
  by_cases h : t' = t
  · subst h
    rw [if_pos rfl, List.filter_filter]
    apply List.filter_congr
    intro a _
    exact Bool.and_self _
  · rw [if_neg h]
    apply List.filter_eq_nil_iff.mpr
    intro a ha
    have := mem_filter_ctype ha
    simp [isType, this, h]

/-- Claim C7. For every fixed queue content drained by the worker with no
concurrent enqueues: the drain empties the queue; the processing order never
places a command after one of a strictly lower priority class
(`DRAW > MERGE > CREATE > ADD > CLEAR_ALL`); and within each class the
processed subsequence equals the enqueued subsequence, i.e. same-class
commands are processed in enqueue order. -/
theorem scheduler_priority_order (q : List Command) :
    (workerDrain q).2 = [] ∧
    List.Pairwise (fun a b => prio a.ctype ≤ prio b.ctype) (workerDrain q).1 ∧
    ∀ t, (workerDrain q).1.filter (isType t) = q.filter (isType t) := by
  rw [workerDrain_eq]
  have hpair : ∀ (t1 t2 : CommandType), prio t1 ≤ prio t2 →
      ∀ a ∈ q.filter (isType t1), ∀ b ∈ q.filter (isType t2),
        prio a.ctype ≤ prio b.ctype := by
    intro t1 t2 h a ha b hb
    rw [mem_filter_ctype ha, mem_filter_ctype hb]
    exact h
  have hone : ∀ t : CommandType,
      (q.filter (isType t)).Pairwise (fun a b => prio a.ctype ≤ prio b.ctype) := by
    intro t
    exact List.pairwise_of_forall_mem_list (hpair t t le_rfl)
  refine ⟨rfl, ?_, ?_⟩
  · show ((((q.filter (isType CommandType.DRAW) ++ q.filter (isType CommandType.MERGE)) ++
      q.filter (isType CommandType.CREATE)) ++ q.filter (isType CommandType.ADD)) ++
      q.filter (isType CommandType.CLEAR_ALL)).Pairwise _
    rw [List.pairwise_append]
    refine ⟨?_, hone _, ?_⟩
    · rw [List.pairwise_append]
      refine ⟨?_, hone _, ?_⟩
      · rw [List.pairwise_append]
        refine ⟨?_, hone _, ?_⟩
        · rw [List.pairwise_append]
          exact ⟨hone _, hone _, hpair _ _ (by decide)⟩
        · intro a ha b hb
          rcases List.mem_append.mp ha with h | h
          · exact hpair _ _ (by decide) a h b hb
          · exact hpair _ _ (by decide) a h b hb
      · intro a ha b hb
        rcases List.mem_append.mp ha with h | h
        · rcases List.mem_append.mp h with h' | h'
          · exact hpair _ _ (by decide) a h' b hb
          · exact hpair _ _ (by decide) a h' b hb
        · exact hpair _ _ (by decide) a h b hb
    · intro a ha b hb
      rcases List.mem_append.mp ha with h | h
      · rcases List.mem_append.mp h with h' | h'
        · rcases List.mem_append.mp h' with h'' | h''
          · exact hpair _ _ (by decide) a h'' b hb
          · exact hpair _ _ (by decide) a h'' b hb
        · exact hpair _ _ (by decide) a h' b hb
      · exact hpair _ _ (by decide) a h b hb
  · intro t
    dsimp only
    rw [List.filter_append, List.filter_append, List.filter_append, List.filter_append,
      filter_block _ CommandType.DRAW, filter_block _ CommandType.MERGE,
      filter_block _ CommandType.CREATE, filter_block _ CommandType.ADD,
      filter_block _ CommandType.CLEAR_ALL]
    cases t <;> simp

/-! ## Datagram transport (src/src/TrackerComm.cpp, header in TrackerComm.hpp)

`PacketHeader` is declared under `#pragma pack(1)`: a 128-byte `packet_id`
array followed by five `uint32_t` fields with no padding, so
`sizeof(PacketHeader)` — the code's `HEADER_SIZE` — is `128 + 5*4 = 148`
bytes. Payload bytes are modelled as `Nat` values below 256; 32-bit words
as `Nat` values below `2^32` (XOR of values below `2^32` stays below
`2^32`, so no truncation is needed). -/

def PACKET_ID_BYTES : Nat := 128

/-- Models `sizeof(TrackerComm::PacketHeader)` under `#pragma pack(1)`. -/
def sizeofPacketHeader : Nat := PACKET_ID_BYTES + 4 + 4 + 4 + 4 + 4

/-- Models `MAX_SEND_SIZE` (TrackerComm.hpp line 92). -/
def MAX_SEND_SIZE : Nat := 4096

/-- Models `max_payload = MAX_SEND_SIZE - HEADER_SIZE` (TrackerComm.cpp line 80). -/
def maxPayload : Nat := MAX_SEND_SIZE - sizeofPacketHeader

theorem maxPayload_eq : maxPayload = 3948 := rfl

/-- The little-endian 32-bit word assembled from four bytes. -/
def leWord (b0 b1 b2 b3 : Nat) : Nat :=
  b0 + 256 * b1 + 65536 * b2 + 16777216 * b3

/-- The word loop plus the remainder `switch` of
`TrackerComm::calculateChecksum`, processing the byte stream four bytes at
a time in order and packing the final 1–3 bytes into the low bytes of a
zero-filled word. -/
def checksumLoop : List Nat → Nat → Nat
  | b0 :: b1 :: b2 :: b3 :: rest, acc => checksumLoop rest (acc ^^^ leWord b0 b1 b2 b3)
  | [], acc => acc
  | [b0], acc => acc ^^^ leWord b0 0 0 0
  | [b0, b1], acc => acc ^^^ leWord b0 b1 0 0
  | [b0, b1, b2], acc => acc ^^^ leWord b0 b1 b2 0

/-- Models `TrackerComm::calculateChecksum(data, size)`: `0` for an empty input,
otherwise the 32-bit XOR accumulated by the loop. -/
def calculateChecksum (bytes : List Nat) : Nat :=
  if bytes.length = 0 then 0 else checksumLoop bytes 0

/-- The spec's formula for the checksum: split the payload into 4-byte
chunks (the last one possibly short), read each as a little-endian word with
missing high bytes zero, and XOR them all. Written independently of
`calculateChecksum` so that the two can be compared. -/
def chunks4 : List Nat → List (List Nat)
  | [] => []
  | l@(_ :: _) => l.take 4 :: chunks4 (l.drop 4)
termination_by l => l.length
decreasing_by
  rename_i hd tl heq
  simp [heq]
  omega

def leWordOfChunk (c : List Nat) : Nat :=
  leWord (c.getD 0 0) (c.getD 1 0) (c.getD 2 0) (c.getD 3 0)

def checksumSpec (bytes : List Nat) : Nat :=
  ((chunks4 bytes).map leWordOfChunk).foldl (· ^^^ ·) 0

/-- Models `total_fragments = (total_data_size + max_payload - 1) / max_payload`
(TrackerComm.cpp line 81). -/
def totalFragments (total_data_size : Nat) : Nat :=
  (total_data_size + maxPayload - 1) / maxPayload

/-- The packet-id string `"TRACK_PACKET_<index>_<total>"`, truncated by the
`strncpy` to at most 127 characters of the 128-byte null-filled field. -/
def packetIdString (idx total : Nat) : List Char :=
  (("TRACK_PACKET" ++ "_" ++ toString idx ++ "_" ++ toString total).toList).take 127

/-- The wire header assembled for one fragment. -/
structure PacketHeader where
  packet_id : List Char
  total_fragments : Nat
  fragment_index : Nat
  total_size : Nat
  fragment_size : Nat
  checksum : Nat
deriving Repr, DecidableEq

/-- The body of the fragment loop in `TrackerComm::sendData`: offset,
fragment size, header fields and the payload slice of fragment `i`. -/
def mkFragment (bytes : List Nat) (i : Nat) : PacketHeader × List Nat :=
  let offset := i * maxPayload
  let fragment_size := min maxPayload (bytes.length - offset)
  let slice := (bytes.drop offset).take fragment_size
  ({ packet_id := packetIdString i (totalFragments bytes.length)
     total_fragments := totalFragments bytes.length
     fragment_index := i
     total_size := bytes.length
     fragment_size := fragment_size
     checksum := calculateChecksum slice }, slice)

/-- The datagrams emitted by `sendData` for a raw byte payload (assuming
every `sendTo` succeeds): one `header || slice` per fragment index. -/
def sendFragments (bytes : List Nat) : List (PacketHeader × List Nat) :=
  (List.range (totalFragments bytes.length)).map (mkFragment bytes)

/-- The little-endian bytes of one 4-byte word (`IntFloatUnion`). -/
def toLE4 (w : Nat) : List Nat :=
  [w % 256, w / 256 % 256, w / 65536 % 256, w / 16777216 % 256]

/-- The raw byte stream of a word payload, as `sendData` views the
`std::vector<IntFloatUnion>` through `reinterpret_cast<const uint8_t*>` on a
little-endian host. -/
def rawBytes (words : List Nat) : List Nat :=
  (words.map toLE4).flatten

/-- The checksum comparison of `TrackerComm::validatePacket` (lines
451-458): recompute over the received payload and compare with the header
field. -/
def checksumMatches (h : PacketHeader) (payload : List Nat) : Bool :=
  h.checksum = calculateChecksum payload

theorem checksumLoop_acc (l : List Nat) (acc : Nat) :
    checksumLoop l acc = acc ^^^ checksumLoop l 0 := by
  suffices H : ∀ (n : Nat) (l : List Nat) (acc : Nat), l.length = n →
      checksumLoop l acc = acc ^^^ checksumLoop l 0 from H l.length l acc rfl
  intro n
  induction n using Nat.strong_induction_on with
  | _ n ih =>
  intro l acc hn
  rcases l with _ | ⟨b0, _ | ⟨b1, _ | ⟨b2, _ | ⟨b3, rest⟩⟩⟩⟩
  · simp [checksumLoop]
  · simp [checksumLoop, Nat.zero_xor]
  · simp [checksumLoop, Nat.zero_xor]
  · simp [checksumLoop, Nat.zero_xor]
  · show checksumLoop rest (acc ^^^ leWord b0 b1 b2 b3) =
      acc ^^^ checksumLoop rest (0 ^^^ leWord b0 b1 b2 b3)
    have hr1 := ih rest.length (by simp [← hn]; omega) rest (acc ^^^ leWord b0 b1 b2 b3) rfl
    have hr2 := ih rest.length (by simp [← hn]; omega) rest (0 ^^^ leWord b0 b1 b2 b3) rfl
    rw [hr1, hr2, Nat.zero_xor, Nat.xor_assoc]

theorem calculateChecksum_eq_loop (l : List Nat) :
    calculateChecksum l = checksumLoop l 0 := by
  cases l with
  | nil => rfl
  | cons b bs =>
    unfold calculateChecksum
    simp

/-- The code's checksum equals the spec's chunkwise little-endian XOR. -/
theorem calculateChecksum_eq_spec (l : List Nat) :
    calculateChecksum l = checksumSpec l := by
  suffices H : ∀ (n : Nat) (l : List Nat), l.length = n →
      checksumLoop l 0 = checksumSpec l by
    rw [calculateChecksum_eq_loop]
    exact H l.length l rfl
  intro n
  induction n using Nat.strong_induction_on with
  | _ n ih =>
  intro l hn
  rcases l with _ | ⟨b0, _ | ⟨b1, _ | ⟨b2, _ | ⟨b3, rest⟩⟩⟩⟩
  · simp [checksumLoop, checksumSpec, chunks4]
  · simp [checksumLoop, checksumSpec, chunks4, leWordOfChunk, Nat.zero_xor]
  · simp [checksumLoop, checksumSpec, chunks4, leWordOfChunk, Nat.zero_xor]
  · simp [checksumLoop, checksumSpec, chunks4, leWordOfChunk, Nat.zero_xor]
  · show checksumLoop rest (0 ^^^ leWord b0 b1 b2 b3) = checksumSpec _
    have hrest := ih rest.length (by simp [← hn]; omega) rest rfl
    rw [checksumLoop_acc, hrest, Nat.zero_xor]
    show leWord b0 b1 b2 b3 ^^^ checksumSpec rest = checksumSpec _
    unfold checksumSpec
    rw [show chunks4 (b0 :: b1 :: b2 :: b3 :: rest) =
        [b0, b1, b2, b3] :: chunks4 rest from by rw [chunks4]; simp]
    rw [List.map_cons, List.foldl_cons]
    have hfold : ∀ (ws : List Nat) (a : Nat),
        ws.foldl (· ^^^ ·) a = a ^^^ ws.foldl (· ^^^ ·) 0 := by
      intro ws
      induction ws with
      | nil => intro a; simp
      | cons w ws ihw =>
        intro a
        rw [List.foldl_cons, List.foldl_cons, ihw (a ^^^ w), ihw (0 ^^^ w), Nat.zero_xor,
          Nat.xor_assoc]
    rw [hfold _ (0 ^^^ leWordOfChunk [b0, b1, b2, b3]), Nat.zero_xor]
    rfl

theorem totalFragments_zero : totalFragments 0 = 0 := by decide

theorem totalFragments_succ (n : Nat) (h : 0 < n) :
    totalFragments n = totalFragments (n - maxPayload) + 1 := by
  unfold totalFragments
  rw [maxPayload_eq]
  omega

/-- The emitted payload slices concatenate back to the original byte
stream. -/
theorem join_fragments (bytes : List Nat) :
    ((sendFragments bytes).map (fun f => f.2)).flatten = bytes := by
  suffices H : ∀ (n : Nat) (bytes : List Nat), bytes.length = n →
      ((sendFragments bytes).map (fun f => f.2)).flatten = bytes from H bytes.length bytes rfl
  intro n
  induction n using Nat.strong_induction_on with
  | _ n ih =>
  intro bytes hn
  by_cases h0 : bytes.length = 0
  · have hb : bytes = [] := List.length_eq_zero.mp h0
    subst hb
    unfold sendFragments
    rw [List.length_nil, totalFragments_zero]
    rfl
  · have hpos : 0 < bytes.length := Nat.pos_of_ne_zero h0
    have hmain : (sendFragments bytes).map (fun f => f.2) =
        bytes.take maxPayload ::
          (sendFragments (bytes.drop maxPayload)).map (fun f => f.2) := by
      unfold sendFragments
      simp only [List.map_map, List.length_drop]
      rw [totalFragments_succ bytes.length hpos, List.range_succ_eq_map, List.map_cons,
        List.map_map]
      congr 1
      · show (mkFragment bytes 0).2 = bytes.take maxPayload
        unfold mkFragment
        dsimp only
        rw [Nat.zero_mul, List.drop_zero, Nat.sub_zero]
        rcases Nat.le_total maxPayload bytes.length with hle | hle
        · rw [Nat.min_eq_left hle]
        · rw [Nat.min_eq_right hle, List.take_length,
            List.take_all_of_le hle]
      · apply List.map_congr_left
        intro i _
        show (mkFragment bytes (i + 1)).2 = (mkFragment (bytes.drop maxPayload) i).2
        unfold mkFragment
        dsimp only
        have hXY : (i + 1) * maxPayload = maxPayload + i * maxPayload := by ring
        rw [hXY, List.drop_drop, List.length_drop]
        have harg : min maxPayload (bytes.length - (maxPayload + i * maxPayload)) =
            min maxPayload (bytes.length - maxPayload - i * maxPayload) := by
          generalize i * maxPayload = K
          omega
        rw [harg]
    rw [hmain, List.flatten_cons,
      ih (bytes.drop maxPayload).length
        (by rw [List.length_drop, maxPayload_eq]; omega) (bytes.drop maxPayload) rfl]
    exact List.take_append_drop _ _

theorem rawBytes_length (words : List Nat) : (rawBytes words).length = 4 * words.length := by
  induction words with
  | nil => rfl
  | cons w ws ih =>
    show (toLE4 w ++ rawBytes ws).length = 4 * (ws.length + 1)
    rw [List.length_append, ih]
    simp [toLE4]
    ring

theorem sendFragments_lengths (bytes : List Nat) :
    (sendFragments bytes).map (fun f => f.2.length) =
      (List.range (totalFragments bytes.length)).map
        (fun i => min maxPayload (bytes.length - i * maxPayload)) := by
  unfold sendFragments
  rw [List.map_map]
  apply List.map_congr_left
  intro i _
  show ((bytes.drop (i * maxPayload)).take
      (min maxPayload (bytes.length - i * maxPayload))).length =
    min maxPayload (bytes.length - i * maxPayload)
  rw [List.length_take, List.length_drop]
  generalize i * maxPayload = K
  omega

theorem sendFragments_ids (bytes : List Nat) :
    (sendFragments bytes).map (fun f => f.1.packet_id) =
      (List.range (totalFragments bytes.length)).map
        (fun i => packetIdString i (totalFragments bytes.length)) := by
  unfold sendFragments
  rw [List.map_map]
  rfl

theorem fragment_size_le (bytes : List Nat) (f : PacketHeader × List Nat)
    (hf : f ∈ sendFragments bytes) : f.2.length ≤ maxPayload := by
  obtain ⟨i, _, rfl⟩ := List.mem_map.mp hf
  show ((bytes.drop (i * maxPayload)).take
      (min maxPayload (bytes.length - i * maxPayload))).length ≤ maxPayload
  rw [List.length_take, List.length_drop]
  generalize i * maxPayload = K
  omega

/-- Claim C9. For every payload of 4-byte words: the emitted fragment
payload slices concatenate back to the original byte stream (so the
fragments carry exactly the payload's words); every fragment's payload is a
whole number of 4-byte words; every fragment header's checksum equals the
32-bit XOR of that fragment's payload read as little-endian 32-bit words
with a short final chunk zero-extended; and the receiver's checksum
recomputation over each fragment verifies. -/
theorem send_checksum_roundtrip (words : List Nat) :
    ((sendFragments (rawBytes words)).map (fun f => f.2)).flatten = rawBytes words ∧
    (∀ f ∈ sendFragments (rawBytes words), f.2.length % 4 = 0) ∧
    (∀ f ∈ sendFragments (rawBytes words), f.1.checksum = checksumSpec f.2) ∧
    (∀ f ∈ sendFragments (rawBytes words), checksumMatches f.1 f.2 = true) := by
  have h4 : (rawBytes words).length % 4 = 0 := by
    rw [rawBytes_length]
    omega
  refine ⟨join_fragments _, ?_, ?_, ?_⟩
  · intro f hf
    obtain ⟨i, _, rfl⟩ := List.mem_map.mp hf
    show (((rawBytes words).drop (i * maxPayload)).take
        (min maxPayload ((rawBytes words).length - i * maxPayload))).length % 4 = 0
    rw [List.length_take, List.length_drop]
    have hK : (i * maxPayload) % 4 = 0 := by
      rw [maxPayload_eq]
      omega
    have hmp : maxPayload % 4 = 0 := by rw [maxPayload_eq]
    generalize hKK : i * maxPayload = K at hK
    omega
  · intro f hf
    obtain ⟨i, _, rfl⟩ := List.mem_map.mp hf
    show calculateChecksum ((mkFragment (rawBytes words) i).2) = checksumSpec _
    rw [calculateChecksum_eq_spec]
  · intro f hf
    obtain ⟨i, _, rfl⟩ := List.mem_map.mp hf
    show checksumMatches (mkFragment (rawBytes words) i).1 (mkFragment (rawBytes words) i).2
      = true
    unfold checksumMatches
    simp [show (mkFragment (rawBytes words) i).1.checksum =
      calculateChecksum ((mkFragment (rawBytes words) i).2) from rfl]

/-- Witness for C9 on the two-word payload `[1, 2]` (one fragment). -/
theorem send_checksum_roundtrip_witness :
    ((sendFragments (rawBytes [1, 2])).map (fun f => f.2)).flatten = rawBytes [1, 2] ∧
    checksumMatches (mkFragment (rawBytes [1, 2]) 0).1
      (mkFragment (rawBytes [1, 2]) 0).2 = true :=
  ⟨(send_checksum_roundtrip [1, 2]).1,
   (send_checksum_roundtrip [1, 2]).2.2.2 (mkFragment (rawBytes [1, 2]) 0) (by decide)⟩

/-- Counterexample to claim C5 as stated: the packed `PacketHeader` is 148
bytes, not 160, so the claimed fragment sizes 3936/3936/128 for the
2000-word payload are wrong as well. -/
theorem header_size_is_not_160 :
    ¬ (sizeofPacketHeader = 160 ∧
      (sendFragments (rawBytes (List.replicate 2000 0))).map (fun f => f.2.length) =
        [3936, 3936, 128]) :=
  fun h => absurd h.1 (by decide)

/-- Claim C5 (amended). The wire header occupies 148 bytes
(`#pragma pack(1)`: 128-byte id plus five 4-byte fields), every fragment's
payload is at most `4096 − 148 = 3948` bytes, and the 2000-word (8000-byte)
payload is sent as three datagrams carrying 3948, 3948 and 104 payload
bytes with packet-ids `TRACK_PACKET_0_3`, `TRACK_PACKET_1_3`,
`TRACK_PACKET_2_3`. -/
theorem fragmentation_with_148_byte_header :
    sizeofPacketHeader = 148 ∧
    (∀ (bytes : List Nat), ∀ f ∈ sendFragments bytes, f.2.length ≤ maxPayload) ∧
    maxPayload = 4096 - 148 ∧
    (sendFragments (rawBytes (List.replicate 2000 0))).map (fun f => f.2.length) =
      [3948, 3948, 104] ∧
    (sendFragments (rawBytes (List.replicate 2000 0))).map (fun f => f.1.packet_id) =
      ["TRACK_PACKET_0_3".toList, "TRACK_PACKET_1_3".toList,
       "TRACK_PACKET_2_3".toList] := by
  have hlen : (rawBytes (List.replicate 2000 (0 : Nat))).length = 8000 := by
    rw [rawBytes_length, List.length_replicate]
  refine ⟨rfl, fragment_size_le, rfl, ?_, ?_⟩
  · rw [sendFragments_lengths, hlen]
    decide
  · rw [sendFragments_ids, hlen]
    decide

/-- Witness for the amended C5: the single fragment of a one-word payload
respects the 3948-byte bound. -/
theorem fragmentation_with_148_byte_header_witness :
    sizeofPacketHeader = 148 ∧
    (mkFragment (rawBytes [5]) 0).2.length ≤ maxPayload :=
  ⟨fragmentation_with_148_byte_header.1,
   fragmentation_with_148_byte_header.2.1 (rawBytes [5]) (mkFragment (rawBytes [5]) 0)
     (by decide)⟩

/-! ## Configuration loader (src/include/TrackConfig.hpp)

A file is its list of lines, each line a list of characters. The record
keeps the two fields the live code can write: `trackmanager_recv_port`
(default 5556) and `trackmanager_recv_filters` (default empty). The
`track_dst_ip` / `trackmanager_dst_port` members and their `applyKeyValue`
branches are commented out in the source (TrackConfig.hpp lines 44-45 and
276-283), so those keys fall through to the unknown-key branch; the
pre-resolved `trackmanager_dst_sockaddr` member is never written by any
live code path and is omitted. `direct_read_count` is still 4. -/

def direct_read_count : Nat := 4

structure TrackConfig where
  trackmanager_recv_port : Nat
  trackmanager_recv_filters : List (List Char)
deriving Repr, DecidableEq

/-- The record as default member initialisers leave it. -/
def defaultConfig : TrackConfig :=
  { trackmanager_recv_port := 5556, trackmanager_recv_filters := [] }

/-- Models `std::isspace` on the default locale. -/
def isSpaceChar (c : Char) : Bool :=
  c = ' ' || c = '\t' || c = '\n' || c = '\x0b' || c = '\x0c' || c = '\r'

/-- Models `TrackConfig::trim`: erase the whitespace prefix and suffix. -/
def trimC (s : List Char) : List Char :=
  ((s.dropWhile isSpaceChar).reverse.dropWhile isSpaceChar).reverse

/-- Models `line.find('=')` plus the two `substr` calls: `none` when the line has
no `=`. -/
def splitAtEq (s : List Char) : Option (List Char × List Char) :=
  let pre := s.takeWhile (fun c => c ≠ '=')
  if pre.length = s.length then none
  else some (pre, s.drop (pre.length + 1))

def digitsToNat (ds : List Char) : Nat :=
  ds.foldl (fun a c => a * 10 + (c.toNat - 48)) 0

/-- Models `std::stoi(s, &pos)` in base 10: skip leading whitespace, optional
sign, longest digit run; `none` when there is no digit
(`invalid_argument`) or the value overflows `int` (`out_of_range`);
otherwise the value and the number of characters consumed. -/
def stoiParse (s : List Char) : Option (Int × Nat) :=
  let ws := s.takeWhile isSpaceChar
  let rest := s.drop ws.length
  match rest with
  | '-' :: r =>
    let ds := r.takeWhile Char.isDigit
    if ds.length = 0 then none
    else if (digitsToNat ds : Int) > 2147483648 then none
    else some (-(digitsToNat ds : Int), ws.length + 1 + ds.length)
  | '+' :: r =>
    let ds := r.takeWhile Char.isDigit
    if ds.length = 0 then none
    else if (digitsToNat ds : Int) > 2147483647 then none
    else some ((digitsToNat ds : Int), ws.length + 1 + ds.length)
  | r =>
    let ds := r.takeWhile Char.isDigit
    if ds.length = 0 then none
    else if (digitsToNat ds : Int) > 2147483647 then none
    else some ((digitsToNat ds : Int), ws.length + ds.length)

/-- Models `TrackConfig::parsePort`: whole string consumed, value in 1..65535. -/
def parsePort (portStr : List Char) : Option Nat :=
  match stoiParse portStr with
  | none => none
  | some (v, pos) =>
    if pos ≠ portStr.length then none
    else if v < 1 ∨ v > 65535 then none
    else some v.toNat

/-- The `" \t\n\r"` set used by `parseFilters` (note: narrower than
`std::isspace`). -/
def filterSpace (c : Char) : Bool :=
  c = ' ' || c = '\t' || c = '\n' || c = '\r'

/-- The per-token trim in `parseFilters`: when the token has no
non-whitespace character (`find_first_not_of` returns npos) it is left
untouched, exactly as the source's conditional does. -/
def trimFilter (s : List Char) : List Char :=
  match s.dropWhile filterSpace with
  | [] => s
  | _ => ((s.dropWhile filterSpace).reverse.dropWhile filterSpace).reverse

/-- The comma-split loop of `parseFilters` (`while start < size` with
`end = find(',')`): the accumulator holds the current token reversed; a
comma emits the token, and a final comma emits no trailing empty token
because the loop condition fails once `start` reaches the size. -/
def splitCommaAux : List Char → List Char → List (List Char)
  | cur, [] => [cur.reverse]
  | cur, [','] => [cur.reverse]
  | cur, ',' :: rest => cur.reverse :: splitCommaAux [] rest
  | cur, c :: rest => splitCommaAux (c :: cur) rest

/-- All comma-separated tokens of the string (empty input: the loop body
never runs). -/
def splitComma : List Char → List (List Char)
  | [] => []
  | s => splitCommaAux [] s

/-- Models `TrackConfig::parseFilters`: split on commas, trim each token, keep the
non-empty ones; fail when none survive. -/
def parseFilters (filtersStr : List Char) : Option (List (List Char)) :=
  let outs := ((splitComma filtersStr).map trimFilter).filter (fun t => t ≠ [])
  if outs.isEmpty then none else some outs

/-- Models `TrackConfig::applyKeyValue`: only `trackmanager_recv_port` and
`trackmanager_recv_filters` are recognised — the `track_dst_ip` and
`trackmanager_dst_port` branches are commented out in the source, so any
other key takes the unknown-key branch and returns failure. -/
def applyKeyValue (cfg : TrackConfig) (key value : List Char) : Option TrackConfig :=
  if key = "trackmanager_recv_port".toList then
    (parsePort value).map (fun p => { cfg with trackmanager_recv_port := p })
  else if key = "trackmanager_recv_filters".toList then
    (parseFilters value).map (fun fs => { cfg with trackmanager_recv_filters := fs })
  else none

/-- The line loop of `TrackConfig::reload`, with the snapshot `old` taken
before parsing: skip blank and `#` lines and lines without `=`; apply each
key/value, bailing out to `(false, old)` on the first failure; at end of
file require at least `direct_read_count` successfully applied items. -/
def reloadLoop (old : TrackConfig) : TrackConfig → Nat → List (List Char) →
    Bool × TrackConfig
  | cfg, passed, [] =>
    if passed < direct_read_count then (false, old) else (true, cfg)
  | cfg, passed, line :: rest =>
    let l := trimC line
    if l.isEmpty then reloadLoop old cfg passed rest
    else if l.headD ' ' = '#' then reloadLoop old cfg passed rest
    else
      match splitAtEq l with
      | none => reloadLoop old cfg passed rest
      | some (k, v) =>
        match applyKeyValue cfg (trimC k) (trimC v) with
        | some cfg' => reloadLoop old cfg' (passed + 1) rest
        | none => (false, old)

/-- Models `TrackConfig::reload` on an already-opened file. -/
def reload (cfg : TrackConfig) (lines : List (List Char)) : Bool × TrackConfig :=
  reloadLoop cfg cfg 0 lines

/-- The configuration file of claim C4: one syntactically valid assignment
to each of the four keys named by the spec. -/
def c4File : List (List Char) :=
  ["trackmanager_dst_ip = 192.168.1.100".toList,
   "trackmanager_dst_port = 5555".toList,
   "trackmanager_recv_port = 5556".toList,
   "trackmanager_recv_filters = TRACK_".toList]

/-- Claim C4 (code bug evidence). The four-key file of the claim is
rejected by `reload` from any starting record (the very first key,
`trackmanager_dst_ip`, hits the unknown-key branch because its handler is
commented out while `direct_read_count` is still 4), and the record rolls
back unchanged — even though the port and filter values are syntactically
valid for their parsers. -/
theorem reload_rejects_four_key_file :
    reload defaultConfig c4File = (false, defaultConfig) ∧
    (∀ cfg : TrackConfig, reload cfg c4File = (false, cfg)) ∧
    parsePort "5555".toList = some 5555 ∧
    parseFilters "TRACK_".toList = some ["TRACK_".toList] := by
  refine ⟨by decide, ?_, by decide, ?_⟩
  · intro cfg
    rfl
  · decide

end TrackSpec
